import Mathlib

/-!
Shallow embedding of the core of the `rust-crafting-interpreters` Lox
interpreter (tree-walk evaluator, resolver, parser, bytecode VM), together
with theorems settling the specification claims against it.

Modelling conventions:
* `f64` is modelled as `ℚ` (`f64::EPSILON` is exactly `2 ^ (-52)`); `NaN`,
  infinities and rounding are out of scope of the claims proved here.
* `Rc<RefCell<...>>` handles are modelled by indices into an explicit store
  (`Store`): `vals` for `LoxValueHandle`, `envs` for `LoxEnvironmentHandle`.
  Allocation appends; mutation updates in place, so sharing is observable
  exactly as through the Rust handles.
* Rust panics (`unwrap`, `expect`, `todo!`, index out of bounds, debug-mode
  `usize` underflow) are modelled by the explicit outcome `panicked`.
* Recursion that is not structural in Rust (environment-chain walks, the
  evaluator, the VM loop) takes an explicit fuel argument; exhausting the
  fuel yields the distinguished outcome `outOfFuel`, which is never
  identified with any program outcome.
-/

namespace Lox

/-- `values.rs`: `LOX_NUMBER_VALUE_COMPARISON_EPSILON = f64::EPSILON`. -/
def LOX_NUMBER_VALUE_COMPARISON_EPSILON : ℚ := 1 / 2 ^ 52

/-- `lexer.rs`: `LoxTokenType`. -/
inductive LoxTokenType where
  | leftParenthesis | rightParenthesis | leftBrace | rightBrace
  | comma | dot | minus | plus | semicolon | slash | star
  | bang | bangEqual | equal | equalEqual
  | greater | greaterEqual | less | lessEqual
  | identifier (name : String)
  | stringLit (value : String)
  | number (value : ℚ)
  | andKw | classKw | elseKw | falseKw | funKw | forKw | ifKw | nilKw | orKw
  | printKw | returnKw | superKw | thisKw | trueKw | varKw | whileKw
  | endOfFile
deriving DecidableEq

/-- `lexer.rs`: `LoxTokenType::is_string`. -/
def LoxTokenType.is_string : LoxTokenType → Bool
  | .stringLit _ => true
  | _ => false

/-- `lexer.rs`: `LoxTokenType::is_number`. -/
def LoxTokenType.is_number : LoxTokenType → Bool
  | .number _ => true
  | _ => false

/-- `parser.rs` calls `get_kind().is_identifier()`. -/
def LoxTokenType.is_identifier : LoxTokenType → Bool
  | .identifier _ => true
  | _ => false

/-- `lexer.rs`: `LoxToken { kind, lexeme, line_number }`. -/
structure LoxToken where
  kind : LoxTokenType
  lexeme : String
  line_number : Nat
deriving DecidableEq

/-- `expressions.rs`: `LoxLiteral`. -/
inductive LoxLiteral where
  | numberLit (value : ℚ)
  | stringLit (value : String)
  | trueLit
  | falseLit
  | nilLit
deriving DecidableEq

/-- `lexer.rs`: `LoxToken::build_literal`. -/
def LoxToken.build_literal (t : LoxToken) : Option LoxLiteral :=
  match t.kind with
  | .stringLit s => some (.stringLit s)
  | .number n => some (.numberLit n)
  | .trueKw => some .trueLit
  | .falseKw => some .falseLit
  | .nilKw => some .nilLit
  | _ => none

/-- `expressions.rs`: `LoxExpression` (constructor names adjusted where the
Rust name is a Lean keyword, e.g. `Variable` becomes `variableExpr`). -/
inductive LoxExpression where
  | noOp
  | assign (name : LoxToken) (value : LoxExpression)
  | binary (left : LoxExpression) (operator : LoxToken) (right : LoxExpression)
  | call (callee : LoxExpression) (parenthesis : LoxToken) (arguments : List LoxExpression)
  | getExpr (object : LoxExpression) (name : LoxToken)
  | group (expression : LoxExpression)
  | literal (value : LoxLiteral)
  | logical (left : LoxExpression) (operator : LoxToken) (right : LoxExpression)
  | setExpr (object : LoxExpression) (name : LoxToken) (value : LoxExpression)
  | superExpr (keyword : LoxToken) (method : LoxToken)
  | thisExpr (keyword : LoxToken)
  | unary (operator : LoxToken) (right : LoxExpression)
  | variableExpr (name : LoxToken)

/-- `expressions.rs`: `LoxExpression::is_noop`. -/
def LoxExpression.is_noop : LoxExpression → Bool
  | .noOp => true
  | _ => false

/-- `expressions.rs`: `LoxStatement`. -/
inductive LoxStatement where
  | noOp
  | block (statements : List LoxStatement)
  | classStmt (name : LoxToken) (super_class : LoxExpression) (methods : List LoxStatement)
  | expression (expression : LoxExpression)
  | function (name : LoxToken) (parameters : List LoxToken) (body : List LoxStatement)
  | ifStmt (condition : LoxExpression) (then_branch : LoxStatement) (else_branch : LoxStatement)
  | print (expression : LoxExpression)
  | returnStmt (keyword : LoxToken) (value : LoxExpression)
  | variableStmt (name : LoxToken) (initializer : LoxExpression)
  | whileStmt (condition : LoxExpression) (body : LoxStatement)

/-- `expressions.rs`: `LoxStatement::is_noop`. -/
def LoxStatement.is_noop : LoxStatement → Bool
  | .noOp => true
  | _ => false

/-- `expressions.rs`: `LoxStatement::deconstruct_function_declaration`. -/
def LoxStatement.deconstruct_function_declaration :
    LoxStatement → Option (LoxToken × List LoxToken × List LoxStatement)
  | .function name parameters body => some (name, parameters, body)
  | _ => none

/-- `expressions.rs`: `LoxOperation`. -/
inductive LoxOperation where
  | invalid
  | expression (expression : LoxExpression)
  | statement (statement : LoxStatement)

/-- `values.rs`: `LoxValue`.  Handles (`LoxValueHandle`,
`LoxEnvironmentHandle`) are store indices (`Nat`).  The `Class` variant
carries the `super_class` field used by `callable.rs` and constructed by
`tree_walk.rs`; `class_find_method` looks only in the own `methods` table,
as in `values.rs`.  The single native function (`clock`) needs no code
pointer: its behaviour is fixed. -/
inductive LoxValue where
  | nil
  | number (value : ℚ)
  | boolean (value : Bool)
  | stringV (value : String)
  | function (arity : Nat) (is_initializer : Bool) (declaration : LoxStatement) (closure : Nat)
  | nativeFunction (label : String) (arity : Nat)
  | classV (name : String) (super_class : Nat) (methods : List (String × Nat))
  | classInstance (classHandle : Nat) (fields : List (String × Nat))

/-- Association-list insert with replacement: `HashMap::insert`. -/
def assocInsert {κ α : Type} [DecidableEq κ] (l : List (κ × α)) (key : κ) (value : α) :
    List (κ × α) :=
  match l with
  | [] => [(key, value)]
  | (k, v) :: rest =>
    if k = key then (k, value) :: rest else (k, v) :: assocInsert rest key value

/-- Association-list lookup: `HashMap::get`. -/
def assocGet {κ α : Type} [DecidableEq κ] (l : List (κ × α)) (key : κ) : Option α :=
  match l with
  | [] => none
  | (k, v) :: rest => if k = key then some v else assocGet rest key

/-- Association-list membership: `HashMap::contains_key`. -/
def assocContains {κ α : Type} [DecidableEq κ] (l : List (κ × α)) (key : κ) : Bool :=
  match l with
  | [] => false
  | (k, _) :: rest => if k = key then true else assocContains rest key

/-- `environment.rs`: `LoxEnvironment { values, outer }`. -/
structure LoxEnvironment where
  values : List (String × Nat)
  outer : Option Nat

/-- The heap: value handles index `vals`, environment handles index `envs`.
`output` collects printed lines in order; `clock` is the (arbitrary, fixed)
number returned by the `clock` native. -/
structure Store where
  vals : List LoxValue
  envs : List LoxEnvironment
  output : List String
  clock : ℚ

def Store.getVal (st : Store) (h : Nat) : Option LoxValue := st.vals.get? h

def Store.setVal (st : Store) (h : Nat) (v : LoxValue) : Store :=
  { st with vals := st.vals.set h v }

/-- `LoxValue::new`: allocate a fresh value handle. -/
def Store.newVal (st : Store) (v : LoxValue) : Nat × Store :=
  (st.vals.length, { st with vals := st.vals ++ [v] })

def Store.getEnv (st : Store) (h : Nat) : Option LoxEnvironment := st.envs.get? h

def Store.setEnv (st : Store) (h : Nat) (e : LoxEnvironment) : Store :=
  { st with envs := st.envs.set h e }

/-- `LoxEnvironment::new`: allocate a fresh environment handle. -/
def Store.newEnv (st : Store) (outer : Option Nat) : Nat × Store :=
  (st.envs.length, { st with envs := st.envs ++ [⟨[], outer⟩] })

def Store.pushOutput (st : Store) (line : String) : Store :=
  { st with output := st.output ++ [line] }

/-- `values.rs`: `LoxValue::is_truthy`. -/
def LoxValue.is_truthy : LoxValue → Bool
  | .nil => false
  | .boolean b => b
  | _ => true

/-- `values.rs`: `LoxValue::equals` (note the final catch-all arm: any pair
not covered above — in particular any function, class or instance pair —
compares unequal). -/
def LoxValue.equals : LoxValue → LoxValue → Bool
  | .nil, .nil => true
  | .nil, _ => false
  | .boolean left, .boolean right => left == right
  | .stringV left, .stringV right => left == right
  | .number left, .number right =>
    decide (|left - right| < LOX_NUMBER_VALUE_COMPARISON_EPSILON)
  | _, _ => false

/-- `values.rs`: `LoxValue::as_number`. -/
def LoxValue.as_number : LoxValue → Option ℚ
  | .number n => some n
  | _ => none

/-- `values.rs`: `LoxValue::function_is_initializer`. -/
def LoxValue.function_is_initializer : LoxValue → Bool
  | .function _ is_initializer _ _ => is_initializer
  | _ => false

/-- `values.rs`: `LoxValue::class_name`. -/
def LoxValue.class_name : LoxValue → Option String
  | .classV name _ _ => some name
  | _ => none

/-- `values.rs`: `LoxValue::is_class` (used by `tree_walk.rs`). -/
def LoxValue.is_class : LoxValue → Bool
  | .classV _ _ _ => true
  | _ => false

/-- `values.rs`: `LoxValue::class_find_method` (own table only). -/
def LoxValue.class_find_method (v : LoxValue) (name : String) : Option Nat :=
  match v with
  | .classV _ _ methods => assocGet methods name
  | _ => none

/-- The primitive variants of `LoxValue` (`Nil`, `Number`, `Boolean`,
`String`); the spec's "value-copied" variants. -/
def LoxValue.isPrimitive : LoxValue → Bool
  | .nil => true
  | .number _ => true
  | .boolean _ => true
  | .stringV _ => true
  | _ => false

/-- Errors (`errors.rs`: `LoxInterpreterError`) plus the two modelling
outcomes `panicked` and `outOfFuel` described in the file header. -/
inductive LoxErr where
  | lexerUnterminatedString
  | lexerInvalidNumber (s : String)
  | lexerUnexpectedCharacter (s : String)
  | parserError (token : LoxToken) (message : String)
  | parserUnexpectedOperation (message : String)
  | resolverUnexpectedOperation (message : String)
  | resolverRecursiveLocalAssignment (token : LoxToken)
  | resolverDuplicateVariableDeclaration (token : LoxToken)
  | resolverImpossibleTopLevelReturn (token : LoxToken)
  | resolverImpossibleInitializerReturn (token : LoxToken)
  | resolverImpossibleThisUsage (token : LoxToken)
  | interpreterUnexpectedOperation (message : String)
  | interpreterNotANumber (message : String)
  | interpreterUndefinedVariable (name : String)
  | interpreterNonCallableValue (token : LoxToken)
  | interpreterCannotGetOrSetField (token : LoxToken)
  | interpreterUndefinedClassProperty (name : String)
  | interpreterCallableWrongArity (expected : Nat) (got : Nat)
  | interpreterSuperClassNotAClass (representation : String)
  | interpreterReturn (value : Nat)
  | panicked (message : String)
  | outOfFuel

/-- `environment.rs`: `LoxEnvironment::define`. -/
def environment_define (st : Store) (env : Nat) (name : String) (value : Nat) : Store :=
  match st.getEnv env with
  | none => st
  | some e => st.setEnv env { e with values := assocInsert e.values name value }

/-- `environment.rs`: `LoxEnvironment::get` / `get_deeply`: look in the local
map, else walk the `outer` chain.  `fuel` bounds the walk; every store built
by the evaluator has acyclic outer links of length at most `envs.length`, so
the bound is never reached there. -/
def environment_get (st : Store) : Nat → Nat → String → Except LoxErr Nat
  | 0, _, _ => .error .outOfFuel
  | fuel + 1, env, name =>
    match st.getEnv env with
    | none => .error (.panicked "invalid environment handle")
    | some e =>
      match assocGet e.values name with
      | some v => .ok v
      | none =>
        match e.outer with
        | some outer => environment_get st fuel outer name
        | none => .error (.interpreterUndefinedVariable name)

/-- `environment.rs`: `LoxEnvironment::assign`: assign in the nearest scope
of the chain that already binds `name`, error if none does. -/
def environment_assign (st : Store) : Nat → Nat → String → Nat → Except LoxErr Store
  | 0, _, _, _ => .error .outOfFuel
  | fuel + 1, env, name, value =>
    match st.getEnv env with
    | none => .error (.panicked "invalid environment handle")
    | some e =>
      if assocContains e.values name then
        .ok (st.setEnv env { e with values := assocInsert e.values name value })
      else
        match e.outer with
        | some outer => environment_assign st fuel outer name value
        | none => .error (.interpreterUndefinedVariable name)

/-- Fuel that always suffices for an acyclic outer-chain walk. -/
def Store.chainFuel (st : Store) : Nat := st.envs.length + 1

/-- `environment.rs`: the loop body of `environment_handle_ancestor`.  Note:
faithfully to the source, each iteration reads the outer link of the
ORIGINAL `handle` (`let current_env = handle.borrow();`), not of `current`,
and `.unwrap()`s it. -/
def environment_handle_ancestor_loop (st : Store) (handle : Nat) :
    Nat → Nat → Except LoxErr Nat
  | 0, current => .ok current
  | distance + 1, _current =>
    match st.getEnv handle with
    | none => .error (.panicked "invalid environment handle")
    | some e =>
      match e.outer with
      | none => .error (.panicked "environment_handle_ancestor: unwrap on None outer")
      | some outer => environment_handle_ancestor_loop st handle distance outer

/-- `environment.rs`: `environment_handle_ancestor`. -/
def environment_handle_ancestor (st : Store) (handle : Nat) (distance : Nat) :
    Except LoxErr Nat :=
  environment_handle_ancestor_loop st handle distance handle

/-- `environment.rs`: `environment_handle_get_at_depth` — the ancestor's
(searching) `get`. -/
def environment_handle_get_at_depth (st : Store) (handle : Nat) (name : String)
    (distance : Nat) : Except LoxErr Nat :=
  match environment_handle_ancestor st handle distance with
  | .error e => .error e
  | .ok ancestor => environment_get st st.chainFuel ancestor name

/-- `environment.rs`: `environment_handle_assign_at_depth` — direct insert
into the ancestor's local map. -/
def environment_handle_assign_at_depth (st : Store) (handle : Nat) (name : String)
    (distance : Nat) (value : Nat) : Except LoxErr Store :=
  match environment_handle_ancestor st handle distance with
  | .error e => .error e
  | .ok ancestor =>
    match st.getEnv ancestor with
    | none => .error (.panicked "invalid environment handle")
    | some e =>
      .ok (st.setEnv ancestor { e with values := assocInsert e.values name value })

/-- Modelled from the spec for claim C6 only: the environment reached by
following EXACTLY `distance` outer links from `handle` (the spec's
"walk exactly `depth` outer links"), for comparison with
`environment_handle_ancestor`. -/
def spec_ancestor (st : Store) : Nat → Nat → Except LoxErr Nat
  | 0, current => .ok current
  | distance + 1, current =>
    match st.getEnv current with
    | none => .error (.panicked "invalid environment handle")
    | some e =>
      match e.outer with
      | none => .error (.panicked "no outer environment")
      | some outer => spec_ancestor st distance outer

/-- `printer.rs`: `LoxLiteral::representation`.  Rust formats `f64` with
`{}`; integer-valued rationals print identically, other rationals are
rendered as rationals (no claim depends on the non-integer format). -/
def ratRepresentation (q : ℚ) : String :=
  if q.den = 1 then toString q.num else toString q

def LoxLiteral.representation : LoxLiteral → String
  | .numberLit n => ratRepresentation n
  | .stringLit s => s
  | .trueLit => "true"
  | .falseLit => "false"
  | .nilLit => "nil"

mutual

/-- `printer.rs`: `LoxExpression::representation` (the S-expression
printer; `debug_parenthesize` / `debug_parenthesize_fragments` inlined). -/
def LoxExpression.representation : LoxExpression → String
  | .noOp => ""
  | .assign name value => "(= " ++ name.lexeme ++ " " ++ value.representation ++ ")"
  | .binary left operator right =>
    "(" ++ operator.lexeme ++ " " ++ left.representation ++ " " ++ right.representation ++ ")"
  | .call callee _ arguments =>
    "(call " ++ callee.representation ++ exprListRepresentation arguments ++ ")"
  | .getExpr object name => "(. " ++ object.representation ++ " " ++ name.lexeme ++ ")"
  | .group expression => "(group " ++ expression.representation ++ ")"
  | .literal value => value.representation
  | .logical left operator right =>
    "(" ++ operator.lexeme ++ " " ++ left.representation ++ " " ++ right.representation ++ ")"
  | .setExpr object name value =>
    "(= " ++ object.representation ++ " " ++ name.lexeme ++ " " ++ value.representation ++ ")"
  | .superExpr _ _ => "super"
  | .thisExpr _ => "this"
  | .unary operator right => "(" ++ operator.lexeme ++ " " ++ right.representation ++ ")"
  | .variableExpr name => name.lexeme

/-- Call arguments, each preceded by a space. -/
def exprListRepresentation : List LoxExpression → String
  | [] => ""
  | e :: rest => " " ++ e.representation ++ exprListRepresentation rest

end

/-- A content hash for tokens, used by `compute_locals_key_from_expression`. -/
def tokenHash (t : LoxToken) : Nat :=
  t.lexeme.hash.toNat + 17 * t.line_number

mutual

/-- Model of `tree_walk.rs` `compute_locals_key_from_expression`
(`DefaultHasher` over the expression's content): a structural content hash.
Like the Rust hash it identifies syntactically identical expressions; the
resolver is the only writer of the map keyed by it. -/
def exprHash : LoxExpression → Nat
  | .noOp => 1
  | .assign name value => 2 + 31 * (tokenHash name + 31 * exprHash value)
  | .binary left operator right =>
    3 + 31 * (exprHash left + 31 * (tokenHash operator + 31 * exprHash right))
  | .call callee parenthesis arguments =>
    4 + 31 * (exprHash callee + 31 * (tokenHash parenthesis + 31 * exprHashList arguments))
  | .getExpr object name => 5 + 31 * (exprHash object + 31 * tokenHash name)
  | .group expression => 6 + 31 * exprHash expression
  | .literal value => 7 + 31 * (match value with
    | .numberLit n => n.num.natAbs + 31 * n.den
    | .stringLit s => s.hash.toNat
    | .trueLit => 1
    | .falseLit => 2
    | .nilLit => 3)
  | .logical left operator right =>
    8 + 31 * (exprHash left + 31 * (tokenHash operator + 31 * exprHash right))
  | .setExpr object name value =>
    9 + 31 * (exprHash object + 31 * (tokenHash name + 31 * exprHash value))
  | .superExpr keyword method => 10 + 31 * (tokenHash keyword + 31 * tokenHash method)
  | .thisExpr keyword => 11 + 31 * tokenHash keyword
  | .unary operator right => 12 + 31 * (tokenHash operator + 31 * exprHash right)
  | .variableExpr name => 13 + 31 * tokenHash name

def exprHashList : List LoxExpression → Nat
  | [] => 0
  | e :: rest => exprHash e + 31 * exprHashList rest

end

/-- `tree_walk.rs`: `compute_locals_key_from_expression`. -/
def compute_locals_key_from_expression (e : LoxExpression) : Nat := exprHash e

/-- The evaluator's `locals` map (`LoxTreeWalkEvaluatorLocals`):
expression key to resolved depth. -/
abbrev LoxTreeWalkEvaluatorLocals := List (Nat × Nat)

/-- `values.rs`: `LoxValue::representation` (store needed for the
instance's class name; malformed values make the Rust code panic). -/
def lox_value_representation (st : Store) : LoxValue → Except LoxErr String
  | .nil => .ok "nil"
  | .number n => .ok (ratRepresentation n)
  | .boolean b => .ok (if b then "true" else "false")
  | .stringV s => .ok s
  | .function _ _ declaration _ =>
    match declaration.deconstruct_function_declaration with
    | some (name, _, _) => .ok ("<fn " ++ name.lexeme ++ ">")
    | none => .error (.panicked "deconstruct_function_declaration unwrap")
  | .nativeFunction label _ => .ok ("<native fn " ++ label ++ ">")
  | .classV name _ _ => .ok name
  | .classInstance classHandle _ =>
    match st.getVal classHandle with
    | none => .error (.panicked "invalid value handle")
    | some classVal =>
      match classVal.class_name with
      | some n => .ok (n ++ " instance")
      | none => .error (.panicked "class_name unwrap")

/-- `tree_walk.rs`: `evaluate_literal` (allocates, as `LoxValue::new` does). -/
def evaluate_literal (st : Store) : LoxLiteral → Nat × Store
  | .numberLit n => st.newVal (.number n)
  | .stringLit s => st.newVal (.stringV s)
  | .trueLit => st.newVal (.boolean true)
  | .falseLit => st.newVal (.boolean false)
  | .nilLit => st.newVal .nil

/-- `tree_walk.rs`: `extract_number`. -/
def extract_number (st : Store) (h : Nat) : Except LoxErr ℚ :=
  match st.getVal h with
  | none => .error (.panicked "invalid value handle")
  | some v =>
    match v.as_number with
    | some n => .ok n
    | none =>
      match lox_value_representation st v with
      | .ok s => .error (.interpreterNotANumber s)
      | .error e => .error e

/-- `values.rs`: `LoxValue::class_method_bind_this`: a fresh environment
extending the method's closure with a `this` binding, and a fresh function
value closing over it. -/
def class_method_bind_this (st : Store) (methodVal : LoxValue) (inst : Nat) :
    Option (Nat × Store) :=
  match methodVal with
  | .function arity is_initializer declaration closure =>
    let (e, st1) := st.newEnv (some closure)
    let st2 := environment_define st1 e "this" inst
    let (h, st3) := st2.newVal (.function arity is_initializer declaration e)
    some (h, st3)
  | _ => none

/-- `values.rs`: `lox_value_handle_instance_get_field`: methods are looked
up first (bound to `this`, i.e. the instance handle), then fields. -/
def lox_value_handle_instance_get_field (st : Store) (handle : Nat) (name : LoxToken) :
    (Except LoxErr Nat) × Store :=
  match st.getVal handle with
  | none => (.error (.panicked "invalid value handle"), st)
  | some (.classInstance classHandle fields) =>
    match st.getVal classHandle with
    | none => (.error (.panicked "invalid value handle"), st)
    | some classVal =>
      match classVal.class_find_method name.lexeme with
      | some m =>
        match st.getVal m with
        | none => (.error (.panicked "invalid value handle"), st)
        | some methodVal =>
          match class_method_bind_this st methodVal handle with
          | some (h, st1) => (.ok h, st1)
          | none => (.error (.panicked "method value is a function"), st)
      | none =>
        match assocGet fields name.lexeme with
        | some f => (.ok f, st)
        | none => (.error (.interpreterUndefinedClassProperty name.lexeme), st)
  | some _ => (.error (.interpreterCannotGetOrSetField name), st)

/-- `values.rs`: `lox_value_handle_instance_set_field`. -/
def lox_value_handle_instance_set_field (st : Store) (handle : Nat) (name : LoxToken)
    (value : Nat) : (Except LoxErr Nat) × Store :=
  match st.getVal handle with
  | none => (.error (.panicked "invalid value handle"), st)
  | some (.classInstance classHandle fields) =>
    (.ok value, st.setVal handle (.classInstance classHandle (assocInsert fields name.lexeme value)))
  | some _ => (.error (.interpreterCannotGetOrSetField name), st)

/-- `tree_walk.rs`: the `LoxExpression::Binary` arm of
`evaluate_expression`, after both operands are evaluated (left first). -/
def evaluate_binary_operation (st : Store) (operator : LoxToken) (lh rh : Nat) :
    (Except LoxErr Nat) × Store :=
  match operator.kind with
  | .minus =>
    match extract_number st lh with
    | .error e => (.error e, st)
    | .ok l =>
      match extract_number st rh with
      | .error e => (.error e, st)
      | .ok r => let (h, st1) := st.newVal (.number (l - r)); (.ok h, st1)
  | .slash =>
    match extract_number st lh with
    | .error e => (.error e, st)
    | .ok l =>
      match extract_number st rh with
      | .error e => (.error e, st)
      | .ok r => let (h, st1) := st.newVal (.number (l / r)); (.ok h, st1)
  | .star =>
    match extract_number st lh with
    | .error e => (.error e, st)
    | .ok l =>
      match extract_number st rh with
      | .error e => (.error e, st)
      | .ok r => let (h, st1) := st.newVal (.number (l * r)); (.ok h, st1)
  | .plus =>
    match st.getVal lh, st.getVal rh with
    | some (.number l), some (.number r) =>
      let (h, st1) := st.newVal (.number (l + r)); (.ok h, st1)
    | some (.stringV l), some (.stringV r) =>
      let (h, st1) := st.newVal (.stringV (l ++ r)); (.ok h, st1)
    | some _, some _ => (.error (.interpreterUnexpectedOperation operator.lexeme), st)
    | _, _ => (.error (.panicked "invalid value handle"), st)
  | .greater =>
    match extract_number st lh with
    | .error e => (.error e, st)
    | .ok l =>
      match extract_number st rh with
      | .error e => (.error e, st)
      | .ok r => let (h, st1) := st.newVal (.boolean (decide (l > r))); (.ok h, st1)
  | .greaterEqual =>
    match extract_number st lh with
    | .error e => (.error e, st)
    | .ok l =>
      match extract_number st rh with
      | .error e => (.error e, st)
      | .ok r => let (h, st1) := st.newVal (.boolean (decide (l ≥ r))); (.ok h, st1)
  | .less =>
    match extract_number st lh with
    | .error e => (.error e, st)
    | .ok l =>
      match extract_number st rh with
      | .error e => (.error e, st)
      | .ok r => let (h, st1) := st.newVal (.boolean (decide (l < r))); (.ok h, st1)
  | .lessEqual =>
    match extract_number st lh with
    | .error e => (.error e, st)
    | .ok l =>
      match extract_number st rh with
      | .error e => (.error e, st)
      | .ok r => let (h, st1) := st.newVal (.boolean (decide (l ≤ r))); (.ok h, st1)
  | .equalEqual =>
    match st.getVal lh, st.getVal rh with
    | some l, some r => let (h, st1) := st.newVal (.boolean (l.equals r)); (.ok h, st1)
    | _, _ => (.error (.panicked "invalid value handle"), st)
  | .bangEqual =>
    match st.getVal lh, st.getVal rh with
    | some l, some r => let (h, st1) := st.newVal (.boolean (!l.equals r)); (.ok h, st1)
    | _, _ => (.error (.panicked "invalid value handle"), st)
  | _ => (.error (.interpreterUnexpectedOperation operator.lexeme), st)

/-- The `for (i, parameter) in parameters.iter().enumerate()` binding loop
of `callable.rs`: `define(parameter, arguments[i])`; a missing argument is
the index-out-of-bounds panic. -/
def bindParameters (st : Store) (env : Nat) :
    List LoxToken → List Nat → Option Store
  | [], _ => some st
  | _ :: _, [] => none
  | p :: ps, a :: rest => bindParameters (environment_define st env p.lexeme a) env ps rest

/-- The `for method in methods` loop of the `Class` arm of
`evaluate_statement`: build the method table (a non-function method is the
`panic!` in the source). -/
def evaluate_class_methods (class_env : Nat) :
    Store → List LoxStatement → List (String × Nat) →
    (Except LoxErr (List (String × Nat))) × Store
  | st, [], acc => (.ok acc, st)
  | st, m :: rest, acc =>
    match m with
    | .function method_name parameters _ =>
      let fval := LoxValue.function parameters.length
        (method_name.lexeme = "init") m class_env
      let (fh, st1) := st.newVal fval
      evaluate_class_methods class_env st1 rest (assocInsert acc method_name.lexeme fh)
    | _ => (.error (.panicked "interpreter: expected a function statement in class methods"), st)

/-- Result shape of `evalCore`: a single value handle (expressions and
statements) or the list of evaluated call arguments. -/
inductive EvalOut where
  | one (h : Nat)
  | many (hs : List Nat)

/-- The mutually recursive entry points of `tree_walk.rs` and `callable.rs`,
combined into one fuel-indexed function: `evaluate_expression`,
`evaluate_statement`, `execute_block_statement` (statement list), the call
argument loop, and `LoxCallable::call`. -/
inductive EvalTask where
  | expr (e : LoxExpression) (env : Nat)
  | stmt (s : LoxStatement) (env : Nat)
  | stmtSeq (l : List LoxStatement) (env : Nat)
  | exprSeq (l : List LoxExpression) (env : Nat)
  | callValue (callee : Nat) (args : List Nat) (env : Nat) (paren : LoxToken)

/-- One combined evaluator.  Errors carry the store: mutations made before
an error (or before a `Return` control signal) persist, as they do through
the Rust handles. -/
def evalCore (locals : LoxTreeWalkEvaluatorLocals) :
    Nat → EvalTask → Store → (Except LoxErr EvalOut) × Store
  | 0, _, st => (.error .outOfFuel, st)
  | fuel + 1, task, st =>
    match task with
    | .expr e env =>
      match e with
      | .noOp => let (h, st1) := st.newVal .nil; (.ok (.one h), st1)
      | .literal value => let (h, st1) := evaluate_literal st value; (.ok (.one h), st1)
      | .group inner => evalCore locals fuel (.expr inner env) st
      | .unary operator right =>
        match evalCore locals fuel (.expr right env) st with
        | (.error err, st1) => (.error err, st1)
        | (.ok (.many _), st1) => (.error (.panicked "shape"), st1)
        | (.ok (.one rh), st1) =>
          match operator.kind with
          | .minus =>
            match extract_number st1 rh with
            | .error err => (.error err, st1)
            | .ok n => let (h, st2) := st1.newVal (.number (-n)); (.ok (.one h), st2)
          | .bang =>
            match st1.getVal rh with
            | none => (.error (.panicked "invalid value handle"), st1)
            | some v =>
              let (h, st2) := st1.newVal (.boolean (!v.is_truthy)); (.ok (.one h), st2)
          | _ => (.error (.interpreterUnexpectedOperation operator.lexeme), st1)
      | .binary left operator right =>
        match evalCore locals fuel (.expr left env) st with
        | (.error err, st1) => (.error err, st1)
        | (.ok (.many _), st1) => (.error (.panicked "shape"), st1)
        | (.ok (.one lh), st1) =>
          match evalCore locals fuel (.expr right env) st1 with
          | (.error err, st2) => (.error err, st2)
          | (.ok (.many _), st2) => (.error (.panicked "shape"), st2)
          | (.ok (.one rh), st2) =>
            match evaluate_binary_operation st2 operator lh rh with
            | (.ok h, st3) => (.ok (.one h), st3)
            | (.error err, st3) => (.error err, st3)
      | .logical left operator right =>
        match evalCore locals fuel (.expr left env) st with
        | (.error err, st1) => (.error err, st1)
        | (.ok (.many _), st1) => (.error (.panicked "shape"), st1)
        | (.ok (.one lh), st1) =>
          match operator.kind with
          | .orKw =>
            match st1.getVal lh with
            | none => (.error (.panicked "invalid value handle"), st1)
            | some v =>
              if v.is_truthy then (.ok (.one lh), st1)
              else evalCore locals fuel (.expr right env) st1
          | .andKw =>
            match st1.getVal lh with
            | none => (.error (.panicked "invalid value handle"), st1)
            | some v =>
              if !v.is_truthy then (.ok (.one lh), st1)
              else evalCore locals fuel (.expr right env) st1
          | _ => (.error (.interpreterUnexpectedOperation operator.lexeme), st1)
      | .variableExpr name =>
        match environment_get st st.chainFuel env name.lexeme with
        | .ok v => (.ok (.one v), st)
        | .error err => (.error err, st)
      | .assign name value =>
        match evalCore locals fuel (.expr value env) st with
        | (.error err, st1) => (.error err, st1)
        | (.ok (.many _), st1) => (.error (.panicked "shape"), st1)
        | (.ok (.one vh), st1) =>
          match assocGet locals (compute_locals_key_from_expression (.assign name value)) with
          | some distance =>
            match environment_handle_assign_at_depth st1 env name.lexeme distance vh with
            | .ok st2 => (.ok (.one vh), st2)
            | .error err => (.error err, st1)
          | none =>
            match environment_assign st1 st1.chainFuel env name.lexeme vh with
            | .ok st2 => (.ok (.one vh), st2)
            | .error err => (.error err, st1)
      | .getExpr object name =>
        match evalCore locals fuel (.expr object env) st with
        | (.error err, st1) => (.error err, st1)
        | (.ok (.many _), st1) => (.error (.panicked "shape"), st1)
        | (.ok (.one oh), st1) =>
          match lox_value_handle_instance_get_field st1 oh name with
          | (.ok h, st2) => (.ok (.one h), st2)
          | (.error err, st2) => (.error err, st2)
      | .setExpr object name value =>
        match evalCore locals fuel (.expr object env) st with
        | (.error err, st1) => (.error err, st1)
        | (.ok (.many _), st1) => (.error (.panicked "shape"), st1)
        | (.ok (.one oh), st1) =>
          match evalCore locals fuel (.expr value env) st1 with
          | (.error err, st2) => (.error err, st2)
          | (.ok (.many _), st2) => (.error (.panicked "shape"), st2)
          | (.ok (.one vh), st2) =>
            match lox_value_handle_instance_set_field st2 oh name vh with
            | (.ok h, st3) => (.ok (.one h), st3)
            | (.error err, st3) => (.error err, st3)
      | .call callee parenthesis arguments =>
        match evalCore locals fuel (.expr callee env) st with
        | (.error err, st1) => (.error err, st1)
        | (.ok (.many _), st1) => (.error (.panicked "shape"), st1)
        | (.ok (.one ch), st1) =>
          match evalCore locals fuel (.exprSeq arguments env) st1 with
          | (.error err, st2) => (.error err, st2)
          | (.ok (.one _), st2) => (.error (.panicked "shape"), st2)
          | (.ok (.many hs), st2) =>
            evalCore locals fuel (.callValue ch hs env parenthesis) st2
      | .thisExpr keyword =>
        match assocGet locals (compute_locals_key_from_expression (.thisExpr keyword)) with
        | some distance =>
          match environment_handle_get_at_depth st env keyword.lexeme distance with
          | .ok h => (.ok (.one h), st)
          | .error err => (.error err, st)
        | none =>
          match environment_get st st.chainFuel env keyword.lexeme with
          | .ok h => (.ok (.one h), st)
          | .error err => (.error err, st)
      | .superExpr keyword method =>
        match assocGet locals (compute_locals_key_from_expression (.superExpr keyword method)) with
        | none =>
          (.error (.panicked "interpreter evaluating LoxExpression::Super expects a defined superclass method."), st)
        | some distance =>
          match environment_handle_get_at_depth st env "super" distance with
          | .error err => (.error err, st)
          | .ok sc =>
            match st.getVal sc with
            | none => (.error (.panicked "invalid value handle"), st)
            | some superVal =>
              match superVal.class_find_method method.lexeme with
              | none =>
                (.error (.panicked "interpreter evaluating LoxExpression::Super expects a defined superclass method."), st)
              | some m =>
                match environment_handle_get_at_depth st env "this" (distance - 1) with
                | .error err => (.error err, st)
                | .ok this_instance =>
                  match st.getVal m with
                  | none => (.error (.panicked "invalid value handle"), st)
                  | some methodVal =>
                    match class_method_bind_this st methodVal this_instance with
                    | some (h, st1) => (.ok (.one h), st1)
                    | none => (.error (.panicked "superclass method value is a function"), st)
    | .stmt s env =>
      match s with
      | .noOp => let (h, st1) := st.newVal .nil; (.ok (.one h), st1)
      | .expression e =>
        match evalCore locals fuel (.expr e env) st with
        | (.error err, st1) => (.error err, st1)
        | (.ok _, st1) => let (h, st2) := st1.newVal .nil; (.ok (.one h), st2)
      | .print e =>
        match evalCore locals fuel (.expr e env) st with
        | (.error err, st1) => (.error err, st1)
        | (.ok (.many _), st1) => (.error (.panicked "shape"), st1)
        | (.ok (.one vh), st1) =>
          match st1.getVal vh with
          | none => (.error (.panicked "invalid value handle"), st1)
          | some v =>
            match lox_value_representation st1 v with
            | .error err => (.error err, st1)
            | .ok line =>
              let st2 := st1.pushOutput line
              let (h, st3) := st2.newVal .nil
              (.ok (.one h), st3)
      | .variableStmt name initializer =>
        match evalCore locals fuel (.expr initializer env) st with
        | (.error err, st1) => (.error err, st1)
        | (.ok (.many _), st1) => (.error (.panicked "shape"), st1)
        | (.ok (.one vh), st1) =>
          let st2 := environment_define st1 env name.lexeme vh
          let (h, st3) := st2.newVal .nil
          (.ok (.one h), st3)
      | .block statements =>
        let (block_env, st1) := st.newEnv (some env)
        evalCore locals fuel (.stmtSeq statements block_env) st1
      | .ifStmt condition then_branch else_branch =>
        match evalCore locals fuel (.expr condition env) st with
        | (.error err, st1) => (.error err, st1)
        | (.ok (.many _), st1) => (.error (.panicked "shape"), st1)
        | (.ok (.one ch), st1) =>
          match st1.getVal ch with
          | none => (.error (.panicked "invalid value handle"), st1)
          | some cv =>
            if cv.is_truthy then
              match evalCore locals fuel (.stmt then_branch env) st1 with
              | (.error err, st2) => (.error err, st2)
              | (.ok _, st2) => let (h, st3) := st2.newVal .nil; (.ok (.one h), st3)
            else if !else_branch.is_noop then
              match evalCore locals fuel (.stmt else_branch env) st1 with
              | (.error err, st2) => (.error err, st2)
              | (.ok _, st2) => let (h, st3) := st2.newVal .nil; (.ok (.one h), st3)
            else
              let (h, st2) := st1.newVal .nil; (.ok (.one h), st2)
      | .whileStmt condition body =>
        match evalCore locals fuel (.expr condition env) st with
        | (.error err, st1) => (.error err, st1)
        | (.ok (.many _), st1) => (.error (.panicked "shape"), st1)
        | (.ok (.one ch), st1) =>
          match st1.getVal ch with
          | none => (.error (.panicked "invalid value handle"), st1)
          | some cv =>
            if cv.is_truthy then
              match evalCore locals fuel (.stmt body env) st1 with
              | (.error err, st2) => (.error err, st2)
              | (.ok _, st2) => evalCore locals fuel (.stmt (.whileStmt condition body) env) st2
            else
              let (h, st2) := st1.newVal .nil; (.ok (.one h), st2)
      | .function name parameters body =>
        let fval := LoxValue.function parameters.length false
          (.function name parameters body) env
        let (fh, st1) := st.newVal fval
        let st2 := environment_define st1 env name.lexeme fh
        let (h, st3) := st2.newVal .nil
        (.ok (.one h), st3)
      | .returnStmt _ value =>
        if value.is_noop then
          let (h, st1) := st.newVal .nil
          (.error (.interpreterReturn h), st1)
        else
          match evalCore locals fuel (.expr value env) st with
          | (.error err, st1) => (.error err, st1)
          | (.ok (.many _), st1) => (.error (.panicked "shape"), st1)
          | (.ok (.one vh), st1) => (.error (.interpreterReturn vh), st1)
      | .classStmt name super_class methods =>
        -- super-class handling
        let afterSuper : (Except LoxErr Nat) × Store :=
          if super_class.is_noop then
            let (h, st1) := st.newVal .nil
            (.ok h, st1)
          else
            match evalCore locals fuel (.expr super_class env) st with
            | (.error err, st1) => (.error err, st1)
            | (.ok (.many _), st1) => (.error (.panicked "shape"), st1)
            | (.ok (.one svh), st1) =>
              match st1.getVal svh with
              | none => (.error (.panicked "invalid value handle"), st1)
              | some sv =>
                if sv.is_class then (.ok svh, st1)
                else (.error (.interpreterSuperClassNotAClass super_class.representation), st1)
        match afterSuper with
        | (.error err, st1) => (.error err, st1)
        | (.ok super_class_value, st1) =>
          -- allows references to the class inside its own methods
          let (nilh, st2) := st1.newVal .nil
          let st3 := environment_define st2 env name.lexeme nilh
          -- "super" handling: note `class_env` aliases `env` (`env.clone()`)
          let st4 :=
            if super_class.is_noop then st3
            else environment_define st3 env "super" super_class_value
          match evaluate_class_methods env st4 methods [] with
          | (.error err, st5) => (.error err, st5)
          | (.ok evaluated_methods, st5) =>
            let (clh, st6) := st5.newVal
              (.classV name.lexeme super_class_value evaluated_methods)
            let st7 := environment_define st6 env name.lexeme clh
            let (h, st8) := st7.newVal .nil
            (.ok (.one h), st8)
    | .stmtSeq l env =>
      match l with
      | [] => let (h, st1) := st.newVal .nil; (.ok (.one h), st1)
      | s :: rest =>
        match evalCore locals fuel (.stmt s env) st with
        | (.error err, st1) => (.error err, st1)
        | (.ok _, st1) => evalCore locals fuel (.stmtSeq rest env) st1
    | .exprSeq l env =>
      match l with
      | [] => (.ok (.many []), st)
      | e :: rest =>
        match evalCore locals fuel (.expr e env) st with
        | (.error err, st1) => (.error err, st1)
        | (.ok (.many _), st1) => (.error (.panicked "shape"), st1)
        | (.ok (.one h), st1) =>
          match evalCore locals fuel (.exprSeq rest env) st1 with
          | (.error err, st2) => (.error err, st2)
          | (.ok (.one _), st2) => (.error (.panicked "shape"), st2)
          | (.ok (.many hs), st2) => (.ok (.many (h :: hs)), st2)
    | .callValue ch args env paren =>
      match st.getVal ch with
      | none => (.error (.panicked "invalid value handle"), st)
      | some (.function arity is_initializer declaration closure) =>
        if arity ≠ args.length then
          (.error (.interpreterCallableWrongArity arity args.length), st)
        else
          let (function_env, st1) := st.newEnv (some closure)
          match declaration.deconstruct_function_declaration with
          | none => (.error (.panicked "deconstruct_function_declaration unwrap"), st1)
          | some (_, parameters, body) =>
            match bindParameters st1 function_env parameters args with
            | none => (.error (.panicked "argument index out of bounds"), st1)
            | some st2 =>
              match evalCore locals fuel (.stmtSeq body function_env) st2 with
              | (.ok _, st3) =>
                -- normal fall-through: `environment_handle_get_at_depth(closure, "this", 0)`
                (match environment_handle_get_at_depth st3 closure "this" 0 with
                 | .ok h => (.ok (.one h), st3)
                 | .error err => (.error err, st3))
              | (.error (.interpreterReturn v), st3) =>
                if is_initializer then
                  (match environment_handle_get_at_depth st3 closure "this" 0 with
                   | .ok h => (.ok (.one h), st3)
                   | .error err => (.error err, st3))
                else (.ok (.one v), st3)
              | (.error err, st3) => (.error err, st3)
      | some (.nativeFunction _ arity) =>
        if arity ≠ args.length then
          (.error (.interpreterCallableWrongArity arity args.length), st)
        else
          -- the only native is `clock`
          let (h, st1) := st.newVal (.number st.clock)
          (.ok (.one h), st1)
      | some (.classV cname csuper methods) =>
        -- class constructor (empty by default)
        let (inst, st1) := st.newVal (.classInstance ch [])
        -- initializer (optional)
        match (LoxValue.classV cname csuper methods).class_find_method "init" with
        | none => (.ok (.one inst), st1)
        | some initializer =>
          match st1.getVal initializer with
          | none => (.error (.panicked "invalid value handle"), st1)
          | some initVal =>
            -- NOTE: the source binds `this` to `self` — the CLASS handle `ch`,
            -- not the new instance
            match class_method_bind_this st1 initVal ch with
            | none => (.error (.panicked "class_method_bind_this unwrap"), st1)
            | some (bound, st2) =>
              match evalCore locals fuel (.callValue bound args env paren) st2 with
              | (.error err, st3) => (.error err, st3)
              | (.ok _, st3) => (.ok (.one inst), st3)
      | some _ => (.error (.interpreterNonCallableValue paren), st)

/-- `tree_walk.rs`: `evaluate_expression` (wrapper selecting the single-value
shape). -/
def evaluate_expression (locals : LoxTreeWalkEvaluatorLocals) (fuel : Nat)
    (e : LoxExpression) (env : Nat) (st : Store) : (Except LoxErr Nat) × Store :=
  match evalCore locals fuel (.expr e env) st with
  | (.ok (.one h), st1) => (.ok h, st1)
  | (.ok (.many _), st1) => (.error (.panicked "shape"), st1)
  | (.error err, st1) => (.error err, st1)

/-- `tree_walk.rs`: `evaluate_statement`. -/
def evaluate_statement (locals : LoxTreeWalkEvaluatorLocals) (fuel : Nat)
    (s : LoxStatement) (env : Nat) (st : Store) : (Except LoxErr Nat) × Store :=
  match evalCore locals fuel (.stmt s env) st with
  | (.ok (.one h), st1) => (.ok h, st1)
  | (.ok (.many _), st1) => (.error (.panicked "shape"), st1)
  | (.error err, st1) => (.error err, st1)

/-- `tree_walk.rs`: `execute_block_statement`. -/
def execute_block_statement (locals : LoxTreeWalkEvaluatorLocals) (fuel : Nat)
    (statements : List LoxStatement) (env : Nat) (st : Store) :
    (Except LoxErr Nat) × Store :=
  match evalCore locals fuel (.stmtSeq statements env) st with
  | (.ok (.one h), st1) => (.ok h, st1)
  | (.ok (.many _), st1) => (.error (.panicked "shape"), st1)
  | (.error err, st1) => (.error err, st1)

/-- `tree_walk.rs`: `LoxTreeWalkEvaluator::new`: a globals environment
pre-populated with the `clock` native.  Returns the globals handle and the
initial store. -/
def evaluatorNew : Nat × Store :=
  let st0 : Store := ⟨[], [], [], 0⟩
  let (globals, st1) := st0.newEnv none
  let (clockHandle, st2) := st1.newVal (.nativeFunction "clock" 0)
  (globals, environment_define st2 globals "clock" clockHandle)

/-- `tree_walk.rs`: `LoxTreeWalkEvaluator::evaluate` over a `LoxOperation`. -/
def evaluateOperation (locals : LoxTreeWalkEvaluatorLocals) (fuel : Nat)
    (globals : Nat) (operation : LoxOperation) (st : Store) :
    (Except LoxErr Nat) × Store :=
  match operation with
  | .invalid => let (h, st1) := st.newVal .nil; (.ok h, st1)
  | .expression e => evaluate_expression locals fuel e globals st
  | .statement s => evaluate_statement locals fuel s globals st

/-- `resolver.rs`: `LoxClassType`. -/
inductive LoxClassType where
  | noneType
  | classType
deriving DecidableEq

/-- `resolver.rs`: `LoxFunctionType`. -/
inductive LoxFunctionType where
  | noneType
  | functionType
  | classMethod
  | classInitializer
deriving DecidableEq

/-- `resolver.rs`: `LoxResolver` (the evaluator it owns is represented by
the only part the resolver could write: the `locals` map).  `scopes` keeps
the INNERMOST scope at the head of the list (`Vec::push` / `last_mut`). -/
structure LoxResolver where
  scopes : List (List (String × Bool))
  current_class_kind : LoxClassType
  current_function_kind : LoxFunctionType
  locals : LoxTreeWalkEvaluatorLocals

/-- `resolver.rs`: `LoxResolver::new`. -/
def LoxResolver.new : LoxResolver := ⟨[], .noneType, .noneType, []⟩

/-- `resolver.rs`: `begin_scope`. -/
def LoxResolver.begin_scope (rs : LoxResolver) : LoxResolver :=
  { rs with scopes := [] :: rs.scopes }

/-- `resolver.rs`: `end_scope`. -/
def LoxResolver.end_scope (rs : LoxResolver) : LoxResolver :=
  { rs with scopes := rs.scopes.tail }

/-- `resolver.rs`: `declare`. -/
def LoxResolver.declare (rs : LoxResolver) (name : LoxToken) :
    Except LoxErr LoxResolver :=
  match rs.scopes with
  | [] => .ok rs
  | scope :: rest =>
    if assocContains scope name.lexeme then
      .error (.resolverDuplicateVariableDeclaration name)
    else
      .ok { rs with scopes := assocInsert scope name.lexeme false :: rest }

/-- `resolver.rs`: `define`. -/
def LoxResolver.define (rs : LoxResolver) (name : LoxToken) : LoxResolver :=
  match rs.scopes with
  | [] => rs
  | scope :: rest => { rs with scopes := assocInsert scope name.lexeme true :: rest }

/-- `resolver.rs`: `resolve_local_variable`.  The loop scans the scopes from
the innermost outward for `name`, but its body — the call that would record
`scopes.len() - 1 - i` into the evaluator's map
(`self.interpreter.resolve(expression, self.scopes.len() - 1 - i)`) — is
commented out behind a `TODO` in the source, so the function changes
nothing and always succeeds. -/
def resolve_local_variable (rs : LoxResolver) (_expression : LoxExpression)
    (_name : LoxToken) : Except LoxErr LoxResolver :=
  .ok rs

/-- The `for parameter in parameters { declare; define; }` loop of
`resolve_function`. -/
def declareAndDefineParameters : LoxResolver → List LoxToken → Except LoxErr LoxResolver
  | rs, [] => .ok rs
  | rs, p :: rest =>
    match rs.declare p with
    | .error err => .error err
    | .ok rs1 => declareAndDefineParameters (rs1.define p) rest

/-- The mutually recursive resolver walks (`resolve`, `resolve_statement`,
`resolve_statements`, `resolve_expression`, `resolve_function`, the class
methods loop, the call arguments loop) as one fuel-indexed function. -/
inductive ResolveTask where
  | op (o : LoxOperation)
  | stmt (s : LoxStatement)
  | stmts (l : List LoxStatement)
  | expr (e : LoxExpression)
  | exprs (l : List LoxExpression)
  | fn (f : LoxStatement) (kind : LoxFunctionType)
  | methods (l : List LoxStatement)

/-- `resolver.rs`: the resolver pass.  It only annotates (and in this
version of the source not even that: see `resolve_local_variable`). -/
def resolveCore : Nat → ResolveTask → LoxResolver → Except LoxErr LoxResolver
  | 0, _, _ => .error .outOfFuel
  | fuel + 1, task, rs =>
    match task with
    | .op o =>
      match o with
      | .invalid => .ok rs
      | .statement s => resolveCore fuel (.stmt s) rs
      | .expression e => resolveCore fuel (.expr e) rs
    | .stmts l =>
      match l with
      | [] => .ok rs
      | s :: rest =>
        match resolveCore fuel (.stmt s) rs with
        | .error err => .error err
        | .ok rs1 => resolveCore fuel (.stmts rest) rs1
    | .stmt s =>
      match s with
      | .noOp => .ok rs
      | .block statements =>
        match resolveCore fuel (.stmts statements) rs.begin_scope with
        | .error err => .error err
        | .ok rs1 => .ok rs1.end_scope
      | .expression e => resolveCore fuel (.expr e) rs
      | .variableStmt name initializer =>
        match rs.declare name with
        | .error err => .error err
        | .ok rs1 =>
          if !initializer.is_noop then
            match resolveCore fuel (.expr initializer) rs1 with
            | .error err => .error err
            | .ok rs2 => .ok (rs2.define name)
          else .ok (rs1.define name)
      | .function name _ _ =>
        match rs.declare name with
        | .error err => .error err
        | .ok rs1 => resolveCore fuel (.fn s .functionType) (rs1.define name)
      | .returnStmt keyword value =>
        if rs.current_function_kind = .noneType then
          .error (.resolverImpossibleTopLevelReturn keyword)
        else if !value.is_noop then
          if rs.current_function_kind = .classInitializer then
            .error (.resolverImpossibleInitializerReturn keyword)
          else resolveCore fuel (.expr value) rs
        else .ok rs
      | .classStmt name _ methods =>
        let enclosing_class_kind := rs.current_class_kind
        let rs1 := { rs with current_class_kind := .classType }
        match rs1.declare name with
        | .error err => .error err
        | .ok rs2 =>
          let rs3 := (rs2.define name).begin_scope
          let rs4 :=
            match rs3.scopes with
            | [] => rs3
            | scope :: rest =>
              { rs3 with scopes := assocInsert scope "this" true :: rest }
          match resolveCore fuel (.methods methods) rs4 with
          | .error err => .error err
          | .ok rs5 =>
            .ok { rs5.end_scope with current_class_kind := enclosing_class_kind }
      | .ifStmt condition then_branch else_branch =>
        match resolveCore fuel (.expr condition) rs with
        | .error err => .error err
        | .ok rs1 =>
          match resolveCore fuel (.stmt then_branch) rs1 with
          | .error err => .error err
          | .ok rs2 =>
            if !else_branch.is_noop then resolveCore fuel (.stmt else_branch) rs2
            else .ok rs2
      | .whileStmt condition body =>
        match resolveCore fuel (.expr condition) rs with
        | .error err => .error err
        | .ok rs1 => resolveCore fuel (.stmt body) rs1
      | .print e => resolveCore fuel (.expr e) rs
    | .expr e =>
      match e with
      | .noOp => .ok rs
      | .thisExpr keyword =>
        if rs.current_class_kind = .noneType then
          .error (.resolverImpossibleThisUsage keyword)
        else resolve_local_variable rs e keyword
      | .superExpr _ _ => .error (.panicked "not yet implemented")
      | .variableExpr name =>
        match rs.scopes with
        | [] => .ok rs
        | scope :: _ =>
          if assocGet scope name.lexeme = some false then
            .error (.resolverRecursiveLocalAssignment name)
          else resolve_local_variable rs e name
      | .assign name value =>
        match resolveCore fuel (.expr value) rs with
        | .error err => .error err
        | .ok rs1 => resolve_local_variable rs1 e name
      | .getExpr object _ => resolveCore fuel (.expr object) rs
      | .setExpr object _ value =>
        match resolveCore fuel (.expr value) rs with
        | .error err => .error err
        | .ok rs1 => resolveCore fuel (.expr object) rs1
      | .call callee _ arguments =>
        match resolveCore fuel (.expr callee) rs with
        | .error err => .error err
        | .ok rs1 => resolveCore fuel (.exprs arguments) rs1
      | .unary _ right => resolveCore fuel (.expr right) rs
      | .binary left _ right =>
        match resolveCore fuel (.expr left) rs with
        | .error err => .error err
        | .ok rs1 => resolveCore fuel (.expr right) rs1
      | .logical left _ right =>
        match resolveCore fuel (.expr left) rs with
        | .error err => .error err
        | .ok rs1 => resolveCore fuel (.expr right) rs1
      | .literal _ => .ok rs
      | .group inner => resolveCore fuel (.expr inner) rs
    | .exprs l =>
      match l with
      | [] => .ok rs
      | e :: rest =>
        match resolveCore fuel (.expr e) rs with
        | .error err => .error err
        | .ok rs1 => resolveCore fuel (.exprs rest) rs1
    | .fn f kind =>
      match f with
      | .function _ parameters body =>
        let enclosing_function_kind := rs.current_function_kind
        let rs1 := ({ rs with current_function_kind := kind }).begin_scope
        match declareAndDefineParameters rs1 parameters with
        | .error err => .error err
        | .ok rs2 =>
          match resolveCore fuel (.stmts body) rs2 with
          | .error err => .error err
          | .ok rs3 =>
            .ok { rs3.end_scope with current_function_kind := enclosing_function_kind }
      | _ => .error (.resolverUnexpectedOperation "resolve_function expected a function")
    | .methods l =>
      match l with
      | [] => .ok rs
      | m :: rest =>
        match m.deconstruct_function_declaration with
        | none => .error (.panicked "deconstruct_function_declaration unwrap")
        | some (method_name, _, _) =>
          let kind : LoxFunctionType :=
            if method_name.lexeme = "init" then .classInitializer else .classMethod
          match resolveCore fuel (.fn m kind) rs with
          | .error err => .error err
          | .ok rs1 => resolveCore fuel (.methods rest) rs1

/-- `resolver.rs`: `LoxResolver::resolve`. -/
def LoxResolver.resolve (rs : LoxResolver) (fuel : Nat) (operation : LoxOperation) :
    Except LoxErr LoxResolver :=
  resolveCore fuel (.op operation) rs

/-- The `for operation in operations { self.resolver.resolve(operation)?; }`
loop of `LoxTreeWalkInterpreter::interpret`. -/
def resolveOperations (fuel : Nat) :
    LoxResolver → List LoxOperation → Except LoxErr LoxResolver
  | rs, [] => .ok rs
  | rs, op :: rest =>
    match rs.resolve fuel op with
    | .error err => .error err
    | .ok rs1 => resolveOperations fuel rs1 rest

/-- The evaluation loop of `LoxTreeWalkInterpreter::interpret`: evaluate the
operations in order, keeping the last value. -/
def evaluateOperations (locals : LoxTreeWalkEvaluatorLocals) (fuel : Nat) (globals : Nat) :
    List LoxOperation → Nat → Store → (Except LoxErr Nat) × Store
  | [], last_value, st => (.ok last_value, st)
  | op :: rest, _last_value, st =>
    match evaluateOperation locals fuel globals op st with
    | (.error err, st1) => (.error err, st1)
    | (.ok h, st1) =>
      match rest with
      | [] => (.ok h, st1)
      | _ => evaluateOperations locals fuel globals rest h st1

/-- `interpreter.rs`: `LoxTreeWalkInterpreter::interpret`: resolve every
operation, then evaluate them in order against the fresh evaluator state. -/
def interpret (fuel : Nat) (operations : List LoxOperation) :
    (Except LoxErr Nat) × Store :=
  let (globals, st0) := evaluatorNew
  match resolveOperations fuel LoxResolver.new operations with
  | .error err => (.error err, st0)
  | .ok rs =>
    let (last, st1) := st0.newVal .nil
    evaluateOperations rs.locals fuel globals operations last st1

/-! ## Bytecode virtual machine (`bytecode.rs`, `bytecode/values.rs`,
`bytecode/vm.rs`) -/

/-- `bytecode.rs`: `LoxBytecodeOpcode` (constructor names suffixed where the
Rust name is a Lean keyword or builtin). -/
inductive LoxBytecodeOpcode where
  | value (index : Nat)
  | constant
  | nilOp
  | trueOp
  | falseOp
  | equal
  | greater
  | less
  | add
  | subtract
  | multiply
  | divide
  | notOp
  | negate
  | returnOp
deriving DecidableEq

/-- `bytecode.rs`: `LoxBytecodeOpcode::as_value`. -/
def LoxBytecodeOpcode.as_value : LoxBytecodeOpcode → Option Nat
  | .value v => some v
  | _ => none

/-- `bytecode/values.rs`: `LoxBytecodeObject`. -/
inductive LoxBytecodeObject where
  | stringObj (value : String)
deriving DecidableEq

/-- `bytecode/values.rs`: `LoxBytecodeObject::equals`. -/
def LoxBytecodeObject.equals : LoxBytecodeObject → LoxBytecodeObject → Bool
  | .stringObj left, .stringObj right => left == right

/-- `bytecode/values.rs`: `LoxBytecodeValue`. -/
inductive LoxBytecodeValue where
  | nilV
  | number (value : ℚ)
  | boolean (value : Bool)
  | object (value : LoxBytecodeObject)
deriving DecidableEq

/-- `bytecode/values.rs`: `LoxBytecodeValue::is_falsy`. -/
def LoxBytecodeValue.is_falsy : LoxBytecodeValue → Bool
  | .nilV => true
  | .boolean value => !value
  | _ => false

/-- `bytecode/values.rs`: `LoxBytecodeValue::as_number`. -/
def LoxBytecodeValue.as_number : LoxBytecodeValue → Option ℚ
  | .number value => some value
  | _ => none

/-- `bytecode/values.rs`: `LoxBytecodeValue::is_number`. -/
def LoxBytecodeValue.is_number : LoxBytecodeValue → Bool
  | .number _ => true
  | _ => false

/-- `bytecode/values.rs`: `LoxBytecodeValue::is_string`. -/
def LoxBytecodeValue.is_string : LoxBytecodeValue → Bool
  | .object (.stringObj _) => true
  | _ => false

/-- `bytecode/values.rs`: `LoxBytecodeValue::equals`. -/
def LoxBytecodeValue.equals : LoxBytecodeValue → LoxBytecodeValue → Bool
  | .nilV, .nilV => true
  | .nilV, _ => false
  | .boolean left, .boolean right => left == right
  | .number left, .number right =>
    decide (|left - right| < LOX_NUMBER_VALUE_COMPARISON_EPSILON)
  | .object left, .object right => left.equals right
  | _, _ => false

/-- `bytecode/values.rs` / `debug.rs`: `representation` / `print_value`. -/
def LoxBytecodeValue.representation : LoxBytecodeValue → String
  | .nilV => "nil"
  | .number value => ratRepresentation value
  | .boolean value => if value then "true" else "false"
  | .object (.stringObj s) => s

/-- `bytecode.rs`: `LoxBytecodeChunk` — parallel `code` and `lines` arrays
plus the constant pool. -/
structure LoxBytecodeChunk where
  lines : List Nat
  constants : List LoxBytecodeValue
  code : List LoxBytecodeOpcode

/-- `bytecode.rs`: `LoxBytecodeChunk::get_constant`. -/
def LoxBytecodeChunk.get_constant (c : LoxBytecodeChunk) (index : Nat) :
    Option LoxBytecodeValue :=
  c.constants.get? index

/-- `bytecode.rs`: `LoxBytecodeChunk::get_line`. -/
def LoxBytecodeChunk.get_line (c : LoxBytecodeChunk) (offset : Nat) : Option Nat :=
  c.lines.get? offset

/-- `bytecode.rs`: `LoxBytecodeChunk::get_size`. -/
def LoxBytecodeChunk.get_size (c : LoxBytecodeChunk) : Nat := c.code.length

/-- `vm.rs`: `LOX_STACK_MAX`. -/
def LOX_STACK_MAX : Nat := 256

/-- `vm.rs`: `LoxInterpreterResult`. -/
inductive LoxInterpreterResult where
  | okR
  | compilationError
  | runtimeError
deriving DecidableEq

/-- `vm.rs`: `LoxBytecodeVirtualMachine`: the fixed 256-slot stack (a list
that always has length `LOX_STACK_MAX`), the stack cursor, the instruction
pointer and the printed output. -/
structure VMState where
  chunk : LoxBytecodeChunk
  instruction_pointer : Nat
  stack : List LoxBytecodeValue
  stack_index : Nat
  output : List String

/-- `vm.rs`: `Default for LoxBytecodeVirtualMachine` with a given chunk
(`stack_init` fills the stack with `Nil`). -/
def vmDefault (chunk : LoxBytecodeChunk) : VMState :=
  ⟨chunk, 0, List.replicate LOX_STACK_MAX .nilV, 0, []⟩

/-- `vm.rs`: `stack_push`: write at `stack_index`, then increment; writing
past the end of the array is the Rust index-out-of-bounds panic. -/
def VMState.stack_push (vm : VMState) (value : LoxBytecodeValue) :
    (Option String) × VMState :=
  if vm.stack_index < vm.stack.length then
    (none, { vm with stack := vm.stack.set vm.stack_index value,
                     stack_index := vm.stack_index + 1 })
  else ("index out of bounds", vm)

/-- `vm.rs`: `stack_pop`: decrement `stack_index` (a `usize`, so
decrementing 0 is the debug-mode overflow panic) and return — faithfully to
the source — `self.stack.last()`, the LAST array slot, not the popped
slot. -/
def VMState.stack_pop (vm : VMState) : (Option String) × LoxBytecodeValue × VMState :=
  if vm.stack_index = 0 then
    ("attempt to subtract with overflow", .nilV, vm)
  else
    match vm.stack.getLast? with
    | some v => (none, v, { vm with stack_index := vm.stack_index - 1 })
    | none => ("the stack should not be empty when popped", .nilV, vm)

/-- `vm.rs`: `peek(distance)`: faithfully to the source, reads the array at
`LOX_STACK_MAX - 1 - distance`, not relative to `stack_index`. -/
def VMState.peek (vm : VMState) (distance : Nat) : Option LoxBytecodeValue :=
  vm.stack.get? (LOX_STACK_MAX - 1 - distance)

/-- `vm.rs`: `stack_reset`. -/
def VMState.stack_reset (vm : VMState) : VMState := { vm with stack_index := 0 }

/-- `vm.rs`: `runtime_error`: print the message, compute
`instruction_pointer - chunk.get_size() - 1` (a `usize` subtraction that
underflows — and so panics in a debug build — whenever
`instruction_pointer < size + 1`), look up the line, print `[line L] in
script`, reset the stack.  Returns the updated state and a panic message if
one occurred. -/
def VMState.runtime_error (vm : VMState) (message : String) :
    (Option String) × VMState :=
  let vm1 := { vm with output := vm.output ++ [message] }
  if vm1.instruction_pointer < vm1.chunk.get_size + 1 then
    (some "attempt to subtract with overflow", vm1)
  else
    let instruction_offset := vm1.instruction_pointer - vm1.chunk.get_size - 1
    match vm1.chunk.get_line instruction_offset with
    | none => (some "vm.runtime_error should be able to get the line number", vm1)
    | some line_number =>
      (none,
        ({ vm1 with output :=
            vm1.output ++ ["[line " ++ toString line_number ++ "] in script"] }).stack_reset)

/-- Outcome of one dispatch-loop iteration of `vm.rs` `interpret`. -/
inductive VMStepOutcome where
  | continuing (vm : VMState)
  | finished (result : LoxInterpreterResult) (vm : VMState)
  | panicked (message : String) (vm : VMState)

/-- `vm.rs`: the `vm_binary_operation!` macro body: type-check via
`peek(0)` / `peek(1)`, report `Operands must be a numbers.` (sic) and
return `RuntimeError` on failure, else pop right, pop left, push the
result. -/
def vm_binary_operation (vm : VMState)
    (apply : ℚ → ℚ → LoxBytecodeValue) : VMStepOutcome :=
  match vm.peek 0, vm.peek 1 with
  | some v0, some v1 =>
    if !v0.is_number || !v1.is_number then
      match vm.runtime_error "Operands must be a numbers." with
      | (some p, vm1) => .panicked p vm1
      | (none, vm1) => .finished .runtimeError vm1
    else
      match vm.stack_pop with
      | (some p, _, vm1) => .panicked p vm1
      | (none, bv, vm1) =>
        match bv.as_number with
        | none => .panicked "vm.binary_operation expects a number value" vm1
        | some b =>
          match vm1.stack_pop with
          | (some p, _, vm2) => .panicked p vm2
          | (none, av, vm2) =>
            match av.as_number with
            | none => .panicked "vm.binary_operation expects a number value" vm2
            | some a =>
              match vm2.stack_push (apply a b) with
              | (some p, vm3) => .panicked p vm3
              | (none, vm3) => .continuing vm3
  | _, _ => .panicked "vm.peek expects a valid stack value" vm

/-- A push continuing the loop, with the panic case threaded. -/
def vmPushContinue (vm : VMState) (value : LoxBytecodeValue) : VMStepOutcome :=
  match vm.stack_push value with
  | (some p, vm1) => .panicked p vm1
  | (none, vm1) => .continuing vm1

/-- `vm.rs`: one iteration of the `interpret` dispatch loop.  Note that,
faithfully to the source, NO arm advances `instruction_pointer`, and the
`Return` arm prints and keeps looping instead of halting. -/
def vmStep (vm : VMState) : VMStepOutcome :=
  match vm.chunk.code.get? vm.instruction_pointer with
  | none => .finished .okR vm
  | some instruction =>
    match instruction with
    | .constant =>
      match vm.chunk.code.get? (vm.instruction_pointer + 1) with
      | none => .panicked "constant opcode is followed by value" vm
      | some next =>
        match next.as_value with
        | none => .panicked "next opcode after constant opcode must be a value" vm
        | some constant_index =>
          match vm.chunk.get_constant constant_index with
          | none => .panicked "the constant must exist" vm
          | some constant => vmPushContinue vm constant
    | .nilOp => vmPushContinue vm .nilV
    | .trueOp => vmPushContinue vm (.boolean true)
    | .falseOp => vmPushContinue vm (.boolean false)
    | .equal =>
      match vm.stack_pop with
      | (some p, _, vm1) => .panicked p vm1
      | (none, b, vm1) =>
        match vm1.stack_pop with
        | (some p, _, vm2) => .panicked p vm2
        | (none, a, vm2) => vmPushContinue vm2 (.boolean (a.equals b))
    | .greater => vm_binary_operation vm (fun a b => .boolean (decide (a > b)))
    | .less => vm_binary_operation vm (fun a b => .boolean (decide (a < b)))
    | .add => vm_binary_operation vm (fun a b => .number (a + b))
    | .subtract => vm_binary_operation vm (fun a b => .number (a - b))
    | .multiply => vm_binary_operation vm (fun a b => .number (a * b))
    | .divide => vm_binary_operation vm (fun a b => .number (a / b))
    | .notOp =>
      match vm.stack_pop with
      | (some p, _, vm1) => .panicked p vm1
      | (none, v, vm1) => vmPushContinue vm1 (.boolean v.is_falsy)
    | .negate =>
      match vm.peek 0 with
      | none => .panicked "vm.peek expects a valid stack value" vm
      | some v =>
        match v with
        | .number value =>
          match vm.stack_pop with
          | (some p, _, vm1) => .panicked p vm1
          | (none, _, vm1) => vmPushContinue vm1 (.number (-value))
        | _ =>
          match vm.runtime_error "Operand must be a number." with
          | (some p, vm1) => .panicked p vm1
          | (none, vm1) => .finished .runtimeError vm1
    | .returnOp =>
      match vm.stack_pop with
      | (some p, _, vm1) => .panicked p vm1
      | (none, v, vm1) =>
        .continuing { vm1 with output := vm1.output ++ [v.representation] }
    | .value _ => .panicked "vm.interpret instruction not implemented" vm

/-- Outcome of running the dispatch loop with the given fuel. -/
inductive VMRunOutcome where
  | finished (result : LoxInterpreterResult) (vm : VMState)
  | panicked (message : String) (vm : VMState)
  | outOfFuel (vm : VMState)

/-- `vm.rs`: the `interpret` dispatch loop, fuel-bounded. -/
def vmRun : Nat → VMState → VMRunOutcome
  | 0, vm => .outOfFuel vm
  | fuel + 1, vm =>
    match vmStep vm with
    | .continuing vm1 => vmRun fuel vm1
    | .finished r vm1 => .finished r vm1
    | .panicked m vm1 => .panicked m vm1

/-! ## Parser (`parser.rs`)

The parser is embedded totally: its state is the `current` index, the token
list is a fixed parameter.  `peek` is total via a default end-of-file token
(the Rust `unwrap` cannot fire on a lexer-produced, EOF-terminated token
list, and on other lists the default only widens the domain).  Each parsing
function returns, along with its `Result` and the new `current`, the
monotonicity facts needed for termination. -/

/-- `expressions.rs`: `LoxOperation::as_expression`. -/
def LoxOperation.as_expression : LoxOperation → Except LoxErr LoxExpression
  | .expression e => .ok e
  | _ => .error (.parserUnexpectedOperation "operation is not an expression")

/-- `expressions.rs`: `LoxOperation::as_statement`. -/
def LoxOperation.as_statement : LoxOperation → Except LoxErr LoxStatement
  | .statement s => .ok s
  | _ => .error (.parserUnexpectedOperation "operation is not a statement")

/-- The default token returned by `peek` past the end of the list. -/
def eofToken : LoxToken := ⟨.endOfFile, "", 0⟩

/-- Result of a parsing function entered at `current = c` over a token list
of length `L`: the `Result` value, the new `current`, and the facts that
`current` never moves backwards and that success consumes at least one
token (which also needs `c` to be in range). -/
structure PRes (L : Nat) (α : Type) (c : Nat) where
  out : Except LoxErr α
  next : Nat
  mono : c ≤ next
  strictOk : ∀ a, out = Except.ok a → c < next ∧ c < L

/-- Result of one of the parser's inner `while` loops: as `PRes`, but a
loop may succeed without consuming anything. -/
structure LRes (α : Type) (c : Nat) where
  out : Except LoxErr α
  next : Nat
  mono : c ≤ next

/-- Result of `handle_declaration`: it always succeeds, and it consumes at
least one token whenever it starts before the end of the input. -/
structure DRes (c : Nat) (atEnd : Bool) where
  out : Except LoxErr LoxOperation
  next : Nat
  mono : c ≤ next
  progress : atEnd = false → c < next

/-- Failure constructor for `PRes`. -/
def PRes.fail {L : Nat} {α : Type} {c : Nat} (e : LoxErr) (next : Nat)
    (mono : c ≤ next) : PRes L α c :=
  ⟨.error e, next, mono, fun _ ha => Except.noConfusion ha⟩

/-- Success constructor for `PRes`. -/
def PRes.succeed {L : Nat} {α : Type} {c : Nat} (a : α) (next : Nat)
    (mono : c ≤ next) (hs : c < next ∧ c < L) : PRes L α c :=
  ⟨.ok a, next, mono, fun _ _ => hs⟩

/-- Rebase a result to an earlier start position. -/
def PRes.lift {L : Nat} {α : Type} {c c1 : Nat} (h : c ≤ c1) (r : PRes L α c1) :
    PRes L α c :=
  ⟨r.out, r.next, Nat.le_trans h r.mono,
    fun a ha =>
      have hs := r.strictOk a ha
      ⟨Nat.lt_of_le_of_lt h hs.1, Nat.lt_of_le_of_lt h hs.2⟩⟩

section ParserEmbedding

variable (tokens : List LoxToken)

/-- `parser.rs`: `peek` (total via the EOF default). -/
def peek (c : Nat) : LoxToken := tokens.getD c eofToken

/-- `parser.rs`: `peek_previous`. -/
def peek_previous (c : Nat) : LoxToken := tokens.getD (c - 1) eofToken

/-- `parser.rs`: `is_at_end`. -/
def is_at_end (c : Nat) : Bool := (peek tokens c).kind == .endOfFile

/-- `parser.rs`: `advance` (the consumed token itself is read off with
`peek_previous` by the callers that need it). -/
def advance (c : Nat) : Nat := if is_at_end tokens c then c else c + 1

/-- `parser.rs`: `check`. -/
def check (c : Nat) (kind : LoxTokenType) : Bool :=
  if is_at_end tokens c then false else (peek tokens c).kind == kind

/-- `parser.rs`: `match_kinds`. -/
def match_kinds (c : Nat) (kinds : List LoxTokenType) : Bool × Nat :=
  if kinds.any (fun kind => check tokens c kind) then (true, advance tokens c)
  else (false, c)

/-- `parser.rs`: `match_identifier`. -/
def match_identifier (c : Nat) : Bool × Nat :=
  if is_at_end tokens c || !(peek tokens c).kind.is_identifier then (false, c)
  else (true, advance tokens c)

/-- `parser.rs`: `match_string`. -/
def match_string (c : Nat) : Bool × Nat :=
  if is_at_end tokens c || !(peek tokens c).kind.is_string then (false, c)
  else (true, advance tokens c)

/-- `parser.rs`: `match_number`. -/
def match_number (c : Nat) : Bool × Nat :=
  if is_at_end tokens c || !(peek tokens c).kind.is_number then (false, c)
  else (true, advance tokens c)

theorem not_at_end_lt_length {c : Nat} (h : is_at_end tokens c = false) :
    c < tokens.length := by
  by_contra hc
  have hd : peek tokens c = eofToken := by
    unfold peek
    exact List.getD_eq_default _ _ (Nat.le_of_not_lt hc)
  unfold is_at_end at h
  rw [hd] at h
  simp [eofToken] at h

theorem advance_ge (c : Nat) : c ≤ advance tokens c := by
  unfold advance; split <;> omega

theorem advance_le (c : Nat) : advance tokens c ≤ c + 1 := by
  unfold advance; split <;> omega

theorem advance_of_not_at_end {c : Nat} (h : is_at_end tokens c = false) :
    advance tokens c = c + 1 := by
  unfold advance; rw [h]; simp

theorem check_not_at_end {c : Nat} {k : LoxTokenType} (h : check tokens c k = true) :
    is_at_end tokens c = false := by
  unfold check at h
  by_contra hc
  rw [Bool.not_eq_false] at hc
  rw [hc] at h
  simp at h

theorem match_kinds_true {c n : Nat} {ks : List LoxTokenType}
    (h : match_kinds tokens c ks = (true, n)) : n = c + 1 ∧ c < tokens.length := by
  unfold match_kinds at h
  split at h
  · rename_i hany
    obtain ⟨k, _, hk⟩ := List.any_eq_true.mp hany
    have hne := check_not_at_end tokens hk
    have := advance_of_not_at_end tokens hne
    have hn : n = advance tokens c := (congrArg Prod.snd h).symm
    exact ⟨by omega, not_at_end_lt_length tokens hne⟩
  · simp at h

theorem match_kinds_false {c n : Nat} {ks : List LoxTokenType}
    (h : match_kinds tokens c ks = (false, n)) : n = c := by
  unfold match_kinds at h
  split at h
  · simp at h
  · exact (congrArg Prod.snd h).symm

theorem match_identifier_true {c n : Nat}
    (h : match_identifier tokens c = (true, n)) : n = c + 1 ∧ c < tokens.length := by
  unfold match_identifier at h
  split at h
  · simp at h
  · rename_i hcond
    have hne : is_at_end tokens c = false := by
      rw [Bool.or_eq_true] at hcond
      push_neg at hcond
      have h1 := hcond.1
      simpa using h1
    have := advance_of_not_at_end tokens hne
    have hn : n = advance tokens c := (congrArg Prod.snd h).symm
    exact ⟨by omega, not_at_end_lt_length tokens hne⟩

theorem match_string_true {c n : Nat}
    (h : match_string tokens c = (true, n)) : n = c + 1 ∧ c < tokens.length := by
  unfold match_string at h
  split at h
  · simp at h
  · rename_i hcond
    have hne : is_at_end tokens c = false := by
      rw [Bool.or_eq_true] at hcond
      push_neg at hcond
      have h1 := hcond.1
      simpa using h1
    have := advance_of_not_at_end tokens hne
    have hn : n = advance tokens c := (congrArg Prod.snd h).symm
    exact ⟨by omega, not_at_end_lt_length tokens hne⟩

theorem match_number_true {c n : Nat}
    (h : match_number tokens c = (true, n)) : n = c + 1 ∧ c < tokens.length := by
  unfold match_number at h
  split at h
  · simp at h
  · rename_i hcond
    have hne : is_at_end tokens c = false := by
      rw [Bool.or_eq_true] at hcond
      push_neg at hcond
      have h1 := hcond.1
      simpa using h1
    have := advance_of_not_at_end tokens hne
    have hn : n = advance tokens c := (congrArg Prod.snd h).symm
    exact ⟨by omega, not_at_end_lt_length tokens hne⟩

/-- `parser.rs`: `consume_kind`. -/
def consume_kind (c : Nat) (kind : LoxTokenType) (message : String) :
    PRes tokens.length LoxToken c :=
  if h : check tokens c kind then
    have hne := check_not_at_end tokens h
    have hadv := advance_of_not_at_end tokens hne
    PRes.succeed (peek_previous tokens (advance tokens c)) (advance tokens c)
      (advance_ge tokens c) ⟨by omega, not_at_end_lt_length tokens hne⟩
  else PRes.fail (.parserError (peek tokens c) message) c (Nat.le_refl c)

/-- `parser.rs`: `consume_identifier`. -/
def consume_identifier (c : Nat) (message : String) :
    PRes tokens.length LoxToken c :=
  if h : !is_at_end tokens c && (peek tokens c).kind.is_identifier then
    have hne : is_at_end tokens c = false := by
      have h2 := h
      simp only [Bool.and_eq_true, Bool.not_eq_true'] at h2
      exact h2.1
    have hadv := advance_of_not_at_end tokens hne
    PRes.succeed (peek_previous tokens (advance tokens c)) (advance tokens c)
      (advance_ge tokens c) ⟨by omega, not_at_end_lt_length tokens hne⟩
  else PRes.fail (.parserError (peek tokens c) message) c (Nat.le_refl c)

/-- `parser.rs`: the `while` body of `synchronize`: advance until after a
semicolon or before a statement-starting keyword. -/
def syncLoop (c : Nat) : Nat :=
  if hae : is_at_end tokens c then c
  else if (peek_previous tokens c).kind == .semicolon
       || (match (peek tokens c).kind with
           | .classKw | .funKw | .varKw | .forKw
           | .ifKw | .whileKw | .printKw | .returnKw => true
           | _ => false) then c
  else syncLoop (advance tokens c)
termination_by tokens.length - c
decreasing_by
  have hne : is_at_end tokens c = false := by simpa using hae
  have hadv := advance_of_not_at_end tokens hne
  have hlt := not_at_end_lt_length tokens hne
  omega

/-- `parser.rs`: `synchronize` (one unconditional `advance`, then the loop). -/
def synchronize (c : Nat) : Nat := syncLoop tokens (advance tokens c)

theorem syncLoop_ge (c : Nat) : c ≤ syncLoop tokens c := by
  unfold syncLoop
  split
  · omega
  · split
    · omega
    · rename_i hae _
      have hne : is_at_end tokens c = false := by simpa using hae
      have hadv := advance_of_not_at_end tokens hne
      have hlt := not_at_end_lt_length tokens hne
      have := syncLoop_ge (advance tokens c)
      omega
termination_by tokens.length - c
decreasing_by omega

theorem synchronize_ge_advance (c : Nat) : advance tokens c ≤ synchronize tokens c :=
  syncLoop_ge tokens (advance tokens c)

mutual

/-- `parser.rs`: `handle_primary`. -/
def handle_primary (c : Nat) : PRes tokens.length LoxExpression c :=
  match h1 : match_kinds tokens c [.falseKw] with
  | (true, c1) =>
    have hm := match_kinds_true tokens h1
    PRes.succeed (.literal .falseLit) c1 (by omega) ⟨by omega, hm.2⟩
  | (false, _) =>
  match h2 : match_kinds tokens c [.trueKw] with
  | (true, c1) =>
    have hm := match_kinds_true tokens h2
    PRes.succeed (.literal .trueLit) c1 (by omega) ⟨by omega, hm.2⟩
  | (false, _) =>
  match h3 : match_kinds tokens c [.nilKw] with
  | (true, c1) =>
    have hm := match_kinds_true tokens h3
    PRes.succeed (.literal .nilLit) c1 (by omega) ⟨by omega, hm.2⟩
  | (false, _) =>
  match h4 : match_number tokens c with
  | (true, c1) =>
    have hm := match_number_true tokens h4
    match (peek_previous tokens c1).build_literal with
    | some value => PRes.succeed (.literal value) c1 (by omega) ⟨by omega, hm.2⟩
    | none => PRes.fail (.panicked "build_literal unwrap") c1 (by omega)
  | (false, _) =>
  match h5 : match_string tokens c with
  | (true, c1) =>
    have hm := match_string_true tokens h5
    match (peek_previous tokens c1).build_literal with
    | some value => PRes.succeed (.literal value) c1 (by omega) ⟨by omega, hm.2⟩
    | none => PRes.fail (.panicked "build_literal unwrap") c1 (by omega)
  | (false, _) =>
  match h6 : match_kinds tokens c [.thisKw] with
  | (true, c1) =>
    have hm := match_kinds_true tokens h6
    PRes.succeed (.thisExpr (peek_previous tokens c1)) c1 (by omega) ⟨by omega, hm.2⟩
  | (false, _) =>
  match h7 : match_identifier tokens c with
  | (true, c1) =>
    have hm := match_identifier_true tokens h7
    PRes.succeed (.variableExpr (peek_previous tokens c1)) c1 (by omega) ⟨by omega, hm.2⟩
  | (false, _) =>
  match h8 : match_kinds tokens c [.leftParenthesis] with
  | (true, c1) =>
    have hm := match_kinds_true tokens h8
    match handle_expression c1 with
    | ⟨rout, rnext, rmono, _⟩ =>
      match rout with
      | .error e => PRes.fail e rnext (by omega)
      | .ok op =>
        match op.as_expression with
        | .error e => PRes.fail e rnext (by omega)
        | .ok expr =>
          match consume_kind tokens rnext .rightParenthesis "Expect ')' after expression." with
          | ⟨crout, crnext, crmono, _⟩ =>
            match crout with
            | .error e => PRes.fail e crnext (by omega)
            | .ok _ => PRes.succeed (.group expr) crnext (by omega) ⟨by omega, hm.2⟩
  | (false, _) =>
    PRes.fail (.parserError (peek tokens c) "Expect expression.") c (Nat.le_refl c)
termination_by (tokens.length - c, 0)
decreasing_by
  all_goals simp_wf
  all_goals first
    | exact Prod.Lex.right _ (by omega)
    | exact Prod.Lex.left _ _ (by omega)

/-- `parser.rs`: the call/property loop of `handle_call`. -/
def handle_call_loop (expr : LoxExpression) (c : Nat) : LRes LoxExpression c :=
  match h1 : match_kinds tokens c [.leftParenthesis] with
  | (true, c1) =>
    have hm := match_kinds_true tokens h1
    match finish_call expr c1 with
    | ⟨fout, fnext, fmono, fstrict⟩ =>
      match hfe : fout with
      | .error e => ⟨.error e, fnext, by omega⟩
      | .ok expr2 =>
        have hst := fstrict expr2 rfl
        match handle_call_loop expr2 fnext with
        | ⟨lout, lnext, lmono⟩ => ⟨lout, lnext, by omega⟩
  | (false, _) =>
  match h2 : match_kinds tokens c [.dot] with
  | (true, c1) =>
    have hm := match_kinds_true tokens h2
    match consume_identifier tokens c1 "Expect property name after '.'." with
    | ⟨ciout, cinext, cimono, _⟩ =>
      match ciout with
      | .error e => ⟨.error e, cinext, by omega⟩
      | .ok nameTok =>
        match handle_call_loop (.getExpr expr nameTok) cinext with
        | ⟨lout, lnext, lmono⟩ => ⟨lout, lnext, by omega⟩
  | (false, _) => ⟨.ok expr, c, Nat.le_refl c⟩
termination_by (tokens.length - c, 1)
decreasing_by
  all_goals simp_wf
  all_goals first
    | exact Prod.Lex.right _ (by omega)
    | exact Prod.Lex.left _ _ (by omega)

/-- `parser.rs`: `handle_call`. -/
def handle_call (c : Nat) : PRes tokens.length LoxExpression c :=
  match handle_primary c with
  | ⟨pout, pnext, pmono, pstrict⟩ =>
    match hpe : pout with
    | .error e => PRes.fail e pnext pmono
    | .ok expr =>
      have hst := pstrict expr rfl
      match handle_call_loop expr pnext with
      | ⟨lout, lnext, lmono⟩ =>
        ⟨lout, lnext, by omega, fun _ _ => ⟨by omega, hst.2⟩⟩
termination_by (tokens.length - c, 2)
decreasing_by
  all_goals simp_wf
  all_goals first
    | exact Prod.Lex.right _ (by omega)
    | exact Prod.Lex.left _ _ (by omega)

/-- `parser.rs`: `finish_call`. -/
def finish_call (callee : LoxExpression) (c : Nat) :
    PRes tokens.length LoxExpression c :=
  match check tokens c .rightParenthesis with
  | true =>
    match consume_kind tokens c .rightParenthesis "Expect ')' after arguments." with
    | ⟨crout, crnext, crmono, crstrict⟩ =>
      match hcre : crout with
      | .error e => PRes.fail e crnext crmono
      | .ok parenthesis =>
        have hst := crstrict _ rfl
        PRes.succeed (.call callee parenthesis []) crnext crmono ⟨by omega, by omega⟩
  | false =>
    match handle_expression c with
    | ⟨rout, rnext, rmono, rstrict⟩ =>
      match hre : rout with
      | .error e => PRes.fail e rnext rmono
      | .ok op =>
        have hst := rstrict op rfl
        match op.as_expression with
        | .error e => PRes.fail e rnext rmono
        | .ok first =>
          match finish_call_args_loop [first] rnext with
          | ⟨laout, lanext, lamono⟩ =>
            match laout with
            | .error e => PRes.fail e lanext (by omega)
            | .ok arguments =>
              match consume_kind tokens lanext .rightParenthesis "Expect ')' after arguments." with
              | ⟨crout, crnext, crmono, _⟩ =>
                match crout with
                | .error e => PRes.fail e crnext (by omega)
                | .ok parenthesis =>
                  PRes.succeed (.call callee parenthesis arguments) crnext (by omega)
                    ⟨by omega, hst.2⟩
termination_by (tokens.length - c, 18)
decreasing_by
  all_goals simp_wf
  all_goals first
    | exact Prod.Lex.right _ (by omega)
    | exact Prod.Lex.left _ _ (by omega)

/-- `parser.rs`: the `while match Comma` argument loop of `finish_call`
(the over-255-arguments diagnostic is print-only and not modelled). -/
def finish_call_args_loop (arguments : List LoxExpression) (c : Nat) :
    LRes (List LoxExpression) c :=
  match h1 : match_kinds tokens c [.comma] with
  | (true, c1) =>
    have hm := match_kinds_true tokens h1
    match handle_expression c1 with
    | ⟨rout, rnext, rmono, _⟩ =>
      match rout with
      | .error e => ⟨.error e, rnext, by omega⟩
      | .ok op =>
        match op.as_expression with
        | .error e => ⟨.error e, rnext, by omega⟩
        | .ok arg =>
          match finish_call_args_loop (arguments ++ [arg]) rnext with
          | ⟨lout, lnext, lmono⟩ => ⟨lout, lnext, by omega⟩
  | (false, _) => ⟨.ok arguments, c, Nat.le_refl c⟩
termination_by (tokens.length - c, 19)
decreasing_by
  all_goals simp_wf
  all_goals first
    | exact Prod.Lex.right _ (by omega)
    | exact Prod.Lex.left _ _ (by omega)

/-- `parser.rs`: `handle_unary`. -/
def handle_unary (c : Nat) : PRes tokens.length LoxExpression c :=
  match h1 : match_kinds tokens c [.bang, .minus] with
  | (true, c1) =>
    have hm := match_kinds_true tokens h1
    let operator := peek_previous tokens c1
    match handle_unary c1 with
    | ⟨rout, rnext, rmono, _⟩ =>
      match rout with
      | .error e => PRes.fail e rnext (by omega)
      | .ok right => PRes.succeed (.unary operator right) rnext (by omega) ⟨by omega, hm.2⟩
  | (false, _) => handle_call c
termination_by (tokens.length - c, 3)
decreasing_by
  all_goals simp_wf
  all_goals first
    | exact Prod.Lex.right _ (by omega)
    | exact Prod.Lex.left _ _ (by omega)

/-- `parser.rs`: `handle_factor`. -/
def handle_factor (c : Nat) : PRes tokens.length LoxExpression c :=
  match handle_unary c with
  | ⟨rout, rnext, rmono, rstrict⟩ =>
    match hre : rout with
    | .error e => PRes.fail e rnext rmono
    | .ok expr =>
      have hst := rstrict expr rfl
      match handle_factor_loop expr rnext with
      | ⟨lout, lnext, lmono⟩ =>
        ⟨lout, lnext, by omega, fun _ _ => ⟨by omega, hst.2⟩⟩
termination_by (tokens.length - c, 4)
decreasing_by
  all_goals simp_wf
  all_goals first
    | exact Prod.Lex.right _ (by omega)
    | exact Prod.Lex.left _ _ (by omega)

/-- `parser.rs`: the `while` loop of `handle_factor`. -/
def handle_factor_loop (expr : LoxExpression) (c : Nat) : LRes LoxExpression c :=
  match h1 : match_kinds tokens c [.slash, .star] with
  | (true, c1) =>
    have hm := match_kinds_true tokens h1
    let operator := peek_previous tokens c1
    match handle_unary c1 with
    | ⟨rout, rnext, rmono, _⟩ =>
      match rout with
      | .error e => ⟨.error e, rnext, by omega⟩
      | .ok right =>
        match handle_factor_loop (.binary expr operator right) rnext with
        | ⟨lout, lnext, lmono⟩ => ⟨lout, lnext, by omega⟩
  | (false, _) => ⟨.ok expr, c, Nat.le_refl c⟩
termination_by (tokens.length - c, 5)
decreasing_by
  all_goals simp_wf
  all_goals first
    | exact Prod.Lex.right _ (by omega)
    | exact Prod.Lex.left _ _ (by omega)

/-- `parser.rs`: `handle_term`. -/
def handle_term (c : Nat) : PRes tokens.length LoxExpression c :=
  match handle_factor c with
  | ⟨rout, rnext, rmono, rstrict⟩ =>
    match hre : rout with
    | .error e => PRes.fail e rnext rmono
    | .ok expr =>
      have hst := rstrict expr rfl
      match handle_term_loop expr rnext with
      | ⟨lout, lnext, lmono⟩ =>
        ⟨lout, lnext, by omega, fun _ _ => ⟨by omega, hst.2⟩⟩
termination_by (tokens.length - c, 6)
decreasing_by
  all_goals simp_wf
  all_goals first
    | exact Prod.Lex.right _ (by omega)
    | exact Prod.Lex.left _ _ (by omega)

/-- `parser.rs`: the `while` loop of `handle_term`. -/
def handle_term_loop (expr : LoxExpression) (c : Nat) : LRes LoxExpression c :=
  match h1 : match_kinds tokens c [.minus, .plus] with
  | (true, c1) =>
    have hm := match_kinds_true tokens h1
    let operator := peek_previous tokens c1
    match handle_factor c1 with
    | ⟨rout, rnext, rmono, _⟩ =>
      match rout with
      | .error e => ⟨.error e, rnext, by omega⟩
      | .ok right =>
        match handle_term_loop (.binary expr operator right) rnext with
        | ⟨lout, lnext, lmono⟩ => ⟨lout, lnext, by omega⟩
  | (false, _) => ⟨.ok expr, c, Nat.le_refl c⟩
termination_by (tokens.length - c, 7)
decreasing_by
  all_goals simp_wf
  all_goals first
    | exact Prod.Lex.right _ (by omega)
    | exact Prod.Lex.left _ _ (by omega)

/-- `parser.rs`: `handle_comparison`. -/
def handle_comparison (c : Nat) : PRes tokens.length LoxExpression c :=
  match handle_term c with
  | ⟨rout, rnext, rmono, rstrict⟩ =>
    match hre : rout with
    | .error e => PRes.fail e rnext rmono
    | .ok expr =>
      have hst := rstrict expr rfl
      match handle_comparison_loop expr rnext with
      | ⟨lout, lnext, lmono⟩ =>
        ⟨lout, lnext, by omega, fun _ _ => ⟨by omega, hst.2⟩⟩
termination_by (tokens.length - c, 8)
decreasing_by
  all_goals simp_wf
  all_goals first
    | exact Prod.Lex.right _ (by omega)
    | exact Prod.Lex.left _ _ (by omega)

/-- `parser.rs`: the `while` loop of `handle_comparison`. -/
def handle_comparison_loop (expr : LoxExpression) (c : Nat) : LRes LoxExpression c :=
  match h1 : match_kinds tokens c [.greater, .greaterEqual, .less, .lessEqual] with
  | (true, c1) =>
    have hm := match_kinds_true tokens h1
    let operator := peek_previous tokens c1
    match handle_term c1 with
    | ⟨rout, rnext, rmono, _⟩ =>
      match rout with
      | .error e => ⟨.error e, rnext, by omega⟩
      | .ok right =>
        match handle_comparison_loop (.binary expr operator right) rnext with
        | ⟨lout, lnext, lmono⟩ => ⟨lout, lnext, by omega⟩
  | (false, _) => ⟨.ok expr, c, Nat.le_refl c⟩
termination_by (tokens.length - c, 9)
decreasing_by
  all_goals simp_wf
  all_goals first
    | exact Prod.Lex.right _ (by omega)
    | exact Prod.Lex.left _ _ (by omega)

/-- `parser.rs`: `handle_equality`. -/
def handle_equality (c : Nat) : PRes tokens.length LoxExpression c :=
  match handle_comparison c with
  | ⟨rout, rnext, rmono, rstrict⟩ =>
    match hre : rout with
    | .error e => PRes.fail e rnext rmono
    | .ok expr =>
      have hst := rstrict expr rfl
      match handle_equality_loop expr rnext with
      | ⟨lout, lnext, lmono⟩ =>
        ⟨lout, lnext, by omega, fun _ _ => ⟨by omega, hst.2⟩⟩
termination_by (tokens.length - c, 10)
decreasing_by
  all_goals simp_wf
  all_goals first
    | exact Prod.Lex.right _ (by omega)
    | exact Prod.Lex.left _ _ (by omega)

/-- `parser.rs`: the `while` loop of `handle_equality`. -/
def handle_equality_loop (expr : LoxExpression) (c : Nat) : LRes LoxExpression c :=
  match h1 : match_kinds tokens c [.bangEqual, .equalEqual] with
  | (true, c1) =>
    have hm := match_kinds_true tokens h1
    let operator := peek_previous tokens c1
    match handle_comparison c1 with
    | ⟨rout, rnext, rmono, _⟩ =>
      match rout with
      | .error e => ⟨.error e, rnext, by omega⟩
      | .ok right =>
        match handle_equality_loop (.binary expr operator right) rnext with
        | ⟨lout, lnext, lmono⟩ => ⟨lout, lnext, by omega⟩
  | (false, _) => ⟨.ok expr, c, Nat.le_refl c⟩
termination_by (tokens.length - c, 11)
decreasing_by
  all_goals simp_wf
  all_goals first
    | exact Prod.Lex.right _ (by omega)
    | exact Prod.Lex.left _ _ (by omega)

/-- `parser.rs`: `handle_and` (builds `Logical` nodes). -/
def handle_and (c : Nat) : PRes tokens.length LoxExpression c :=
  match handle_equality c with
  | ⟨rout, rnext, rmono, rstrict⟩ =>
    match hre : rout with
    | .error e => PRes.fail e rnext rmono
    | .ok expr =>
      have hst := rstrict expr rfl
      match handle_and_loop expr rnext with
      | ⟨lout, lnext, lmono⟩ =>
        ⟨lout, lnext, by omega, fun _ _ => ⟨by omega, hst.2⟩⟩
termination_by (tokens.length - c, 12)
decreasing_by
  all_goals simp_wf
  all_goals first
    | exact Prod.Lex.right _ (by omega)
    | exact Prod.Lex.left _ _ (by omega)

/-- `parser.rs`: the `while` loop of `handle_and`. -/
def handle_and_loop (expr : LoxExpression) (c : Nat) : LRes LoxExpression c :=
  match h1 : match_kinds tokens c [.andKw] with
  | (true, c1) =>
    have hm := match_kinds_true tokens h1
    let operator := peek_previous tokens c1
    match handle_equality c1 with
    | ⟨rout, rnext, rmono, _⟩ =>
      match rout with
      | .error e => ⟨.error e, rnext, by omega⟩
      | .ok right =>
        match handle_and_loop (.logical expr operator right) rnext with
        | ⟨lout, lnext, lmono⟩ => ⟨lout, lnext, by omega⟩
  | (false, _) => ⟨.ok expr, c, Nat.le_refl c⟩
termination_by (tokens.length - c, 13)
decreasing_by
  all_goals simp_wf
  all_goals first
    | exact Prod.Lex.right _ (by omega)
    | exact Prod.Lex.left _ _ (by omega)

/-- `parser.rs`: `handle_or` (builds `Logical` nodes). -/
def handle_or (c : Nat) : PRes tokens.length LoxExpression c :=
  match handle_and c with
  | ⟨rout, rnext, rmono, rstrict⟩ =>
    match hre : rout with
    | .error e => PRes.fail e rnext rmono
    | .ok expr =>
      have hst := rstrict expr rfl
      match handle_or_loop expr rnext with
      | ⟨lout, lnext, lmono⟩ =>
        ⟨lout, lnext, by omega, fun _ _ => ⟨by omega, hst.2⟩⟩
termination_by (tokens.length - c, 14)
decreasing_by
  all_goals simp_wf
  all_goals first
    | exact Prod.Lex.right _ (by omega)
    | exact Prod.Lex.left _ _ (by omega)

/-- `parser.rs`: the `while` loop of `handle_or`. -/
def handle_or_loop (expr : LoxExpression) (c : Nat) : LRes LoxExpression c :=
  match h1 : match_kinds tokens c [.orKw] with
  | (true, c1) =>
    have hm := match_kinds_true tokens h1
    let operator := peek_previous tokens c1
    match handle_and c1 with
    | ⟨rout, rnext, rmono, _⟩ =>
      match rout with
      | .error e => ⟨.error e, rnext, by omega⟩
      | .ok right =>
        match handle_or_loop (.logical expr operator right) rnext with
        | ⟨lout, lnext, lmono⟩ => ⟨lout, lnext, by omega⟩
  | (false, _) => ⟨.ok expr, c, Nat.le_refl c⟩
termination_by (tokens.length - c, 15)
decreasing_by
  all_goals simp_wf
  all_goals first
    | exact Prod.Lex.right _ (by omega)
    | exact Prod.Lex.left _ _ (by omega)

/-- `parser.rs`: `handle_assignment` (right-associative; rewrites a
`Variable` or `Get` target, any other target is `Invalid assignment
target.`). -/
def handle_assignment (c : Nat) : PRes tokens.length LoxExpression c :=
  match handle_or c with
  | ⟨rout, rnext, rmono, rstrict⟩ =>
    match hre : rout with
    | .error e => PRes.fail e rnext rmono
    | .ok expr =>
      have hst := rstrict expr rfl
      match h1 : match_kinds tokens rnext [.equal] with
      | (true, c1) =>
        have hm := match_kinds_true tokens h1
        let equals_token := peek_previous tokens c1
        match handle_assignment c1 with
        | ⟨vout, vnext, vmono, _⟩ =>
          match vout with
          | .error e => PRes.fail e vnext (by omega)
          | .ok value =>
            match expr with
            | .variableExpr name =>
              PRes.succeed (.assign name value) vnext (by omega) ⟨by omega, hst.2⟩
            | .getExpr object name =>
              PRes.succeed (.setExpr object name value) vnext (by omega) ⟨by omega, hst.2⟩
            | _ =>
              PRes.fail (.parserError equals_token "Invalid assignment target.") vnext (by omega)
      | (false, _) => ⟨.ok expr, rnext, rmono, fun _ _ => hst⟩
termination_by (tokens.length - c, 16)
decreasing_by
  all_goals simp_wf
  all_goals first
    | exact Prod.Lex.right _ (by omega)
    | exact Prod.Lex.left _ _ (by omega)

/-- `parser.rs`: `handle_expression` (wraps into `LoxOperation::Expression`). -/
def handle_expression (c : Nat) : PRes tokens.length LoxOperation c :=
  match handle_assignment c with
  | ⟨rout, rnext, rmono, rstrict⟩ =>
    match hre : rout with
    | .error e => PRes.fail e rnext rmono
    | .ok expr =>
      have hst := rstrict expr rfl
      PRes.succeed (.expression expr) rnext rmono hst
termination_by (tokens.length - c, 17)
decreasing_by
  all_goals simp_wf
  all_goals first
    | exact Prod.Lex.right _ (by omega)
    | exact Prod.Lex.left _ _ (by omega)

/-- `parser.rs`: `handle_expression_statement`. -/
def handle_expression_statement (c : Nat) : PRes tokens.length LoxOperation c :=
  match handle_expression c with
  | ⟨rout, rnext, rmono, rstrict⟩ =>
    match hre : rout with
    | .error e => PRes.fail e rnext rmono
    | .ok op =>
      have hst := rstrict op rfl
      match op.as_expression with
      | .error e => PRes.fail e rnext rmono
      | .ok expr =>
        match consume_kind tokens rnext .semicolon "Expect ';' after expression." with
        | ⟨csout, csnext, csmono, _⟩ =>
          match csout with
          | .error e => PRes.fail e csnext (by omega)
          | .ok _ =>
            PRes.succeed (.statement (.expression expr)) csnext (by omega) ⟨by omega, hst.2⟩
termination_by (tokens.length - c, 20)
decreasing_by
  all_goals simp_wf
  all_goals first
    | exact Prod.Lex.right _ (by omega)
    | exact Prod.Lex.left _ _ (by omega)

/-- `parser.rs`: `handle_print_statement`. -/
def handle_print_statement (c : Nat) : PRes tokens.length LoxOperation c :=
  match handle_expression c with
  | ⟨rout, rnext, rmono, rstrict⟩ =>
    match hre : rout with
    | .error e => PRes.fail e rnext rmono
    | .ok op =>
      have hst := rstrict op rfl
      match op.as_expression with
      | .error e => PRes.fail e rnext rmono
      | .ok expr =>
        match consume_kind tokens rnext .semicolon "Expect ';' after value." with
        | ⟨csout, csnext, csmono, _⟩ =>
          match csout with
          | .error e => PRes.fail e csnext (by omega)
          | .ok _ =>
            PRes.succeed (.statement (.print expr)) csnext (by omega) ⟨by omega, hst.2⟩
termination_by (tokens.length - c, 21)
decreasing_by
  all_goals simp_wf
  all_goals first
    | exact Prod.Lex.right _ (by omega)
    | exact Prod.Lex.left _ _ (by omega)

/-- `parser.rs`: `handle_return_statement` (the keyword is the already
consumed `return`, read with `peek_previous`). -/
def handle_return_statement (c : Nat) : PRes tokens.length LoxOperation c :=
  let keyword := peek_previous tokens c
  match check tokens c .semicolon with
  | true =>
    match consume_kind tokens c .semicolon "Expect ';' after return value." with
    | ⟨csout, csnext, csmono, csstrict⟩ =>
      match hcse : csout with
      | .error e => PRes.fail e csnext csmono
      | .ok _ =>
        have hst := csstrict _ rfl
        PRes.succeed (.statement (.returnStmt keyword .noOp)) csnext csmono hst
  | false =>
    match handle_expression c with
    | ⟨rout, rnext, rmono, rstrict⟩ =>
      match hre : rout with
      | .error e => PRes.fail e rnext rmono
      | .ok op =>
        have hst := rstrict op rfl
        match op.as_expression with
        | .error e => PRes.fail e rnext rmono
        | .ok value =>
          match consume_kind tokens rnext .semicolon "Expect ';' after return value." with
          | ⟨csout, csnext, csmono, _⟩ =>
            match csout with
            | .error e => PRes.fail e csnext (by omega)
            | .ok _ =>
              PRes.succeed (.statement (.returnStmt keyword value)) csnext (by omega)
                ⟨by omega, hst.2⟩
termination_by (tokens.length - c, 22)
decreasing_by
  all_goals simp_wf
  all_goals first
    | exact Prod.Lex.right _ (by omega)
    | exact Prod.Lex.left _ _ (by omega)

/-- `parser.rs`: `handle_if_statement`. -/
def handle_if_statement (c : Nat) : PRes tokens.length LoxOperation c :=
  match consume_kind tokens c .leftParenthesis "Expect '(' after 'if'." with
  | ⟨aout, anext, amono, astrict⟩ =>
    match hae : aout with
    | .error e => PRes.fail e anext amono
    | .ok _ =>
      have hst0 := astrict _ rfl
      match handle_expression anext with
      | ⟨rout, rnext, rmono, _⟩ =>
        match rout with
        | .error e => PRes.fail e rnext (by omega)
        | .ok op =>
          match op.as_expression with
          | .error e => PRes.fail e rnext (by omega)
          | .ok condition =>
            match consume_kind tokens rnext .rightParenthesis "Expect ')' after if condition." with
            | ⟨bout, bnext, bmono, _⟩ =>
              match bout with
              | .error e => PRes.fail e bnext (by omega)
              | .ok _ =>
                match handle_statement bnext with
                | ⟨tout, tnext, tmono, _⟩ =>
                  match tout with
                  | .error e => PRes.fail e tnext (by omega)
                  | .ok tbop =>
                    match tbop.as_statement with
                    | .error e => PRes.fail e tnext (by omega)
                    | .ok then_branch =>
                      match he : match_kinds tokens tnext [.elseKw] with
                      | (true, c2) =>
                        have hm := match_kinds_true tokens he
                        match handle_statement c2 with
                        | ⟨eout, enext, emono, _⟩ =>
                          match eout with
                          | .error e => PRes.fail e enext (by omega)
                          | .ok ebop =>
                            match ebop.as_statement with
                            | .error e => PRes.fail e enext (by omega)
                            | .ok else_branch =>
                              PRes.succeed
                                (.statement (.ifStmt condition then_branch else_branch))
                                enext (by omega) ⟨by omega, hst0.2⟩
                      | (false, _) =>
                        PRes.succeed (.statement (.ifStmt condition then_branch .noOp))
                          tnext (by omega) ⟨by omega, hst0.2⟩
termination_by (tokens.length - c, 23)
decreasing_by
  all_goals simp_wf
  all_goals first
    | exact Prod.Lex.right _ (by omega)
    | exact Prod.Lex.left _ _ (by omega)

/-- `parser.rs`: `handle_while_statement`. -/
def handle_while_statement (c : Nat) : PRes tokens.length LoxOperation c :=
  match consume_kind tokens c .leftParenthesis "Expect '(' after 'while'." with
  | ⟨aout, anext, amono, astrict⟩ =>
    match hae : aout with
    | .error e => PRes.fail e anext amono
    | .ok _ =>
      have hst0 := astrict _ rfl
      match handle_expression anext with
      | ⟨rout, rnext, rmono, _⟩ =>
        match rout with
        | .error e => PRes.fail e rnext (by omega)
        | .ok op =>
          match op.as_expression with
          | .error e => PRes.fail e rnext (by omega)
          | .ok condition =>
            match consume_kind tokens rnext .rightParenthesis "Expect ')' after condition." with
            | ⟨bout, bnext, bmono, _⟩ =>
              match bout with
              | .error e => PRes.fail e bnext (by omega)
              | .ok _ =>
                match handle_statement bnext with
                | ⟨tout, tnext, tmono, _⟩ =>
                  match tout with
                  | .error e => PRes.fail e tnext (by omega)
                  | .ok bop =>
                    match bop.as_statement with
                    | .error e => PRes.fail e tnext (by omega)
                    | .ok body =>
                      PRes.succeed (.statement (.whileStmt condition body)) tnext
                        (by omega) ⟨by omega, hst0.2⟩
termination_by (tokens.length - c, 24)
decreasing_by
  all_goals simp_wf
  all_goals first
    | exact Prod.Lex.right _ (by omega)
    | exact Prod.Lex.left _ _ (by omega)

/-- `parser.rs`: `handle_for_statement`, including the desugaring into
`Block`/`While`. -/
def handle_for_statement (c : Nat) : PRes tokens.length LoxOperation c :=
  match consume_kind tokens c .leftParenthesis "Expect '(' after 'for'." with
  | ⟨aout, anext, amono, astrict⟩ =>
    match hae : aout with
    | .error e => PRes.fail e anext amono
    | .ok _ =>
      have hst0 := astrict _ rfl
      -- initializer
      match (match hi1 : match_kinds tokens anext [.semicolon] with
             | (true, ci) =>
               have hm := match_kinds_true tokens hi1
               (⟨.ok .noOp, ci, by omega⟩ : LRes LoxStatement anext)
             | (false, _) =>
               match hi2 : match_kinds tokens anext [.varKw] with
               | (true, ci) =>
                 have hm := match_kinds_true tokens hi2
                 match handle_variable_declaration ci with
                 | ⟨vout, vnext, vmono, _⟩ =>
                   match vout with
                   | .error e => ⟨.error e, vnext, by omega⟩
                   | .ok op =>
                     match op.as_statement with
                     | .error e => ⟨.error e, vnext, by omega⟩
                     | .ok s => ⟨.ok s, vnext, by omega⟩
               | (false, _) =>
                 match handle_expression_statement anext with
                 | ⟨eout, enext, emono, _⟩ =>
                   match eout with
                   | .error e => ⟨.error e, enext, emono⟩
                   | .ok op =>
                     match op.as_statement with
                     | .error e => ⟨.error e, enext, emono⟩
                     | .ok s => ⟨.ok s, enext, emono⟩) with
      | ⟨iout, inext, imono⟩ =>
        match iout with
        | .error e => PRes.fail e inext (by omega)
        | .ok initializer =>
          -- condition
          match (match check tokens inext .semicolon with
                 | true => (⟨.ok .noOp, inext, Nat.le_refl _⟩ : LRes LoxExpression inext)
                 | false =>
                   match handle_expression inext with
                   | ⟨rout, rnext, rmono, _⟩ =>
                     match rout with
                     | .error e => ⟨.error e, rnext, rmono⟩
                     | .ok op =>
                       match op.as_expression with
                       | .error e => ⟨.error e, rnext, rmono⟩
                       | .ok condition => ⟨.ok condition, rnext, rmono⟩) with
          | ⟨cdout, cdnext, cdmono⟩ =>
            match cdout with
            | .error e => PRes.fail e cdnext (by omega)
            | .ok condition =>
              match consume_kind tokens cdnext .semicolon "Expect ';' after loop condition." with
              | ⟨csout, csnext, csmono, _⟩ =>
                match csout with
                | .error e => PRes.fail e csnext (by omega)
                | .ok _ =>
                  -- increment
                  match (match check tokens csnext .rightParenthesis with
                         | true => (⟨.ok .noOp, csnext, Nat.le_refl _⟩ : LRes LoxExpression csnext)
                         | false =>
                           match handle_expression csnext with
                           | ⟨rout, rnext, rmono, _⟩ =>
                             match rout with
                             | .error e => ⟨.error e, rnext, rmono⟩
                             | .ok op =>
                               match op.as_expression with
                               | .error e => ⟨.error e, rnext, rmono⟩
                               | .ok increment => ⟨.ok increment, rnext, rmono⟩) with
                  | ⟨icout, icnext, icmono⟩ =>
                    match icout with
                    | .error e => PRes.fail e icnext (by omega)
                    | .ok increment =>
                      match consume_kind tokens icnext .rightParenthesis "Expect ')' after for clauses." with
                      | ⟨cpout, cpnext, cpmono, _⟩ =>
                        match cpout with
                        | .error e => PRes.fail e cpnext (by omega)
                        | .ok _ =>
                          -- body
                          match handle_statement cpnext with
                          | ⟨bout, bnext, bmono, _⟩ =>
                            match bout with
                            | .error e => PRes.fail e bnext (by omega)
                            | .ok bodyOp =>
                              -- `for` desugaring
                              match (if !increment.is_noop then
                                       match bodyOp.as_statement with
                                       | .error e => .error e
                                       | .ok bs =>
                                         .ok (.statement (.block [bs, .expression increment]))
                                     else .ok bodyOp : Except LoxErr LoxOperation) with
                              | .error e => PRes.fail e bnext (by omega)
                              | .ok body1op =>
                                match body1op.as_statement with
                                | .error e => PRes.fail e bnext (by omega)
                                | .ok b1s =>
                                  let body2 : LoxOperation := .statement (.whileStmt
                                    (if condition.is_noop then .literal .trueLit else condition) b1s)
                                  if !initializer.is_noop then
                                    match body2.as_statement with
                                    | .error e => PRes.fail e bnext (by omega)
                                    | .ok b2s =>
                                      PRes.succeed (.statement (.block [initializer, b2s])) bnext
                                        (by omega) ⟨by omega, hst0.2⟩
                                  else
                                    PRes.succeed body2 bnext (by omega) ⟨by omega, hst0.2⟩
termination_by (tokens.length - c, 25)
decreasing_by
  all_goals simp_wf
  all_goals first
    | exact Prod.Lex.right _ (by omega)
    | exact Prod.Lex.left _ _ (by omega)

/-- `parser.rs`: `handle_variable_declaration`. -/
def handle_variable_declaration (c : Nat) : PRes tokens.length LoxOperation c :=
  match consume_identifier tokens c "Expect variable name." with
  | ⟨ciout, cinext, cimono, cistrict⟩ =>
    match hcie : ciout with
    | .error e => PRes.fail e cinext cimono
    | .ok name =>
      have hst := cistrict _ rfl
      match (match hm1 : match_kinds tokens cinext [.equal] with
             | (true, c1) =>
               have hm := match_kinds_true tokens hm1
               match handle_expression c1 with
               | ⟨rout, rnext, rmono, _⟩ =>
                 match rout with
                 | .error e => (⟨.error e, rnext, by omega⟩ : LRes LoxExpression cinext)
                 | .ok op =>
                   match op.as_expression with
                   | .error e => ⟨.error e, rnext, by omega⟩
                   | .ok expr => ⟨.ok expr, rnext, by omega⟩
             | (false, _) => ⟨.ok .noOp, cinext, Nat.le_refl _⟩) with
      | ⟨iout, inext, imono⟩ =>
        match iout with
        | .error e => PRes.fail e inext (by omega)
        | .ok initializer =>
          match consume_kind tokens inext .semicolon "Expect ';' after variable declaration." with
          | ⟨csout, csnext, csmono, _⟩ =>
            match csout with
            | .error e => PRes.fail e csnext (by omega)
            | .ok _ =>
              PRes.succeed (.statement (.variableStmt name initializer)) csnext (by omega)
                ⟨by omega, hst.2⟩
termination_by (tokens.length - c, 26)
decreasing_by
  all_goals simp_wf
  all_goals first
    | exact Prod.Lex.right _ (by omega)
    | exact Prod.Lex.left _ _ (by omega)

/-- `parser.rs`: the `while match Comma` parameter loop of
`handle_function_declaration` (the over-255-parameters diagnostic is
print-only and not modelled). -/
def handle_function_params_loop (parameters : List LoxToken) (c : Nat) :
    LRes (List LoxToken) c :=
  match h1 : match_kinds tokens c [.comma] with
  | (true, c1) =>
    have hm := match_kinds_true tokens h1
    match consume_identifier tokens c1 "Expect parameter name." with
    | ⟨ciout, cinext, cimono, _⟩ =>
      match ciout with
      | .error e => ⟨.error e, cinext, by omega⟩
      | .ok p =>
        match handle_function_params_loop (parameters ++ [p]) cinext with
        | ⟨lout, lnext, lmono⟩ => ⟨lout, lnext, by omega⟩
  | (false, _) => ⟨.ok parameters, c, Nat.le_refl c⟩
termination_by (tokens.length - c, 27)
decreasing_by
  all_goals simp_wf
  all_goals first
    | exact Prod.Lex.right _ (by omega)
    | exact Prod.Lex.left _ _ (by omega)

/-- `parser.rs`: `handle_function_declaration` (`kind` is `"function"` or
`"method"`, used in the error messages). -/
def handle_function_declaration (kind : String) (c : Nat) :
    PRes tokens.length LoxOperation c :=
  match consume_identifier tokens c ("Expect " ++ kind ++ " name.") with
  | ⟨ciout, cinext, cimono, cistrict⟩ =>
    match hcie : ciout with
    | .error e => PRes.fail e cinext cimono
    | .ok name =>
      have hst := cistrict _ rfl
      match consume_kind tokens cinext .leftParenthesis ("Expect '(' after " ++ kind ++ " name.") with
      | ⟨cpout, cpnext, cpmono, _⟩ =>
        match cpout with
        | .error e => PRes.fail e cpnext (by omega)
        | .ok _ =>
          match (match check tokens cpnext .rightParenthesis with
                 | true => (⟨.ok [], cpnext, Nat.le_refl _⟩ : LRes (List LoxToken) cpnext)
                 | false =>
                   match consume_identifier tokens cpnext "Expect parameter name." with
                   | ⟨pi0out, pi0next, pi0mono, _⟩ =>
                     match pi0out with
                     | .error e => ⟨.error e, pi0next, pi0mono⟩
                     | .ok p0 =>
                       match handle_function_params_loop [p0] pi0next with
                       | ⟨lout, lnext, lmono⟩ => ⟨lout, lnext, by omega⟩) with
          | ⟨psout, psnext, psmono⟩ =>
            match psout with
            | .error e => PRes.fail e psnext (by omega)
            | .ok parameters =>
              match consume_kind tokens psnext .rightParenthesis "Expect ')' after parameters." with
              | ⟨crpout, crpnext, crpmono, _⟩ =>
                match crpout with
                | .error e => PRes.fail e crpnext (by omega)
                | .ok _ =>
                  match consume_kind tokens crpnext .leftBrace ("Expect '\x7b' before " ++ kind ++ " body.") with
                  | ⟨clbout, clbnext, clbmono, _⟩ =>
                    match clbout with
                    | .error e => PRes.fail e clbnext (by omega)
                    | .ok _ =>
                      match handle_statements_block clbnext with
                      | ⟨bdout, bdnext, bdmono, _⟩ =>
                        match bdout with
                        | .error e => PRes.fail e bdnext (by omega)
                        | .ok body =>
                          PRes.succeed (.statement (.function name parameters body)) bdnext
                            (by omega) ⟨by omega, hst.2⟩
termination_by (tokens.length - c, 28)
decreasing_by
  all_goals simp_wf
  all_goals first
    | exact Prod.Lex.right _ (by omega)
    | exact Prod.Lex.left _ _ (by omega)

/-- `parser.rs`: the method loop of `handle_class_declaration`. -/
def handle_class_methods_loop (methods : List LoxStatement) (c : Nat) :
    LRes (List LoxStatement) c :=
  if hg : check tokens c .rightBrace || is_at_end tokens c then ⟨.ok methods, c, Nat.le_refl c⟩
  else
    have hgf : is_at_end tokens c = false := by
      have hor : (check tokens c .rightBrace || is_at_end tokens c) = false := by
        cases hcase : (check tokens c .rightBrace || is_at_end tokens c) with
        | true => exact absurd hcase hg
        | false => rfl
      rcases Bool.or_eq_false_iff.mp hor with ⟨_, h2⟩
      exact h2
    have hlt := not_at_end_lt_length tokens hgf
    match handle_function_declaration "method" c with
    | ⟨fdout, fdnext, fdmono, fdstrict⟩ =>
      match hfde : fdout with
      | .error e => ⟨.error e, fdnext, fdmono⟩
      | .ok op =>
        have hst := fdstrict op rfl
        match op.as_statement with
        | .error e => ⟨.error e, fdnext, fdmono⟩
        | .ok m =>
          match handle_class_methods_loop (methods ++ [m]) fdnext with
          | ⟨lout, lnext, lmono⟩ => ⟨lout, lnext, by omega⟩
termination_by (tokens.length - c, 29)
decreasing_by
  all_goals simp_wf
  all_goals first
    | exact Prod.Lex.right _ (by omega)
    | exact Prod.Lex.left _ _ (by omega)

/-- `parser.rs`: `handle_class_declaration` (note: no superclass parsing;
`super_class` is always `NoOp`). -/
def handle_class_declaration (c : Nat) : PRes tokens.length LoxOperation c :=
  match consume_identifier tokens c "Expect class name." with
  | ⟨ciout, cinext, cimono, cistrict⟩ =>
    match hcie : ciout with
    | .error e => PRes.fail e cinext cimono
    | .ok name =>
      have hst := cistrict _ rfl
      match consume_kind tokens cinext .leftBrace "Expect '\x7b' before class body." with
      | ⟨cbout, cbnext, cbmono, _⟩ =>
        match cbout with
        | .error e => PRes.fail e cbnext (by omega)
        | .ok _ =>
          match handle_class_methods_loop [] cbnext with
          | ⟨mlout, mlnext, mlmono⟩ =>
            match mlout with
            | .error e => PRes.fail e mlnext (by omega)
            | .ok methods =>
              match consume_kind tokens mlnext .rightBrace "Expect '\x7d' before class body." with
              | ⟨crbout, crbnext, crbmono, _⟩ =>
                match crbout with
                | .error e => PRes.fail e crbnext (by omega)
                | .ok _ =>
                  PRes.succeed (.statement (.classStmt name .noOp methods)) crbnext (by omega)
                    ⟨by omega, hst.2⟩
termination_by (tokens.length - c, 30)
decreasing_by
  all_goals simp_wf
  all_goals first
    | exact Prod.Lex.right _ (by omega)
    | exact Prod.Lex.left _ _ (by omega)

/-- `parser.rs`: `handle_statement`. -/
def handle_statement (c : Nat) : PRes tokens.length LoxOperation c :=
  match h1 : match_kinds tokens c [.forKw] with
  | (true, c1) =>
    have hm := match_kinds_true tokens h1
    PRes.lift (by omega) (handle_for_statement c1)
  | (false, _) =>
  match h2 : match_kinds tokens c [.ifKw] with
  | (true, c1) =>
    have hm := match_kinds_true tokens h2
    PRes.lift (by omega) (handle_if_statement c1)
  | (false, _) =>
  match h3 : match_kinds tokens c [.printKw] with
  | (true, c1) =>
    have hm := match_kinds_true tokens h3
    PRes.lift (by omega) (handle_print_statement c1)
  | (false, _) =>
  match h4 : match_kinds tokens c [.returnKw] with
  | (true, c1) =>
    have hm := match_kinds_true tokens h4
    PRes.lift (by omega) (handle_return_statement c1)
  | (false, _) =>
  match h5 : match_kinds tokens c [.whileKw] with
  | (true, c1) =>
    have hm := match_kinds_true tokens h5
    PRes.lift (by omega) (handle_while_statement c1)
  | (false, _) =>
  match h6 : match_kinds tokens c [.leftBrace] with
  | (true, c1) =>
    have hm := match_kinds_true tokens h6
    match handle_statements_block c1 with
    | ⟨sbout, sbnext, sbmono, _⟩ =>
      match sbout with
      | .error e => PRes.fail e sbnext (by omega)
      | .ok statements =>
        PRes.succeed (.statement (.block statements)) sbnext (by omega) ⟨by omega, hm.2⟩
  | (false, _) => handle_expression_statement c
termination_by (tokens.length - c, 31)
decreasing_by
  all_goals simp_wf
  all_goals first
    | exact Prod.Lex.right _ (by omega)
    | exact Prod.Lex.left _ _ (by omega)

/-- `parser.rs`: the `inner_parsing` closure of `handle_declaration`. -/
def inner_declaration (c : Nat) : PRes tokens.length LoxOperation c :=
  match h1 : match_kinds tokens c [.classKw] with
  | (true, c1) =>
    have hm := match_kinds_true tokens h1
    PRes.lift (by omega) (handle_class_declaration c1)
  | (false, _) =>
  match h2 : match_kinds tokens c [.funKw] with
  | (true, c1) =>
    have hm := match_kinds_true tokens h2
    PRes.lift (by omega) (handle_function_declaration "function" c1)
  | (false, _) =>
  match h3 : match_kinds tokens c [.varKw] with
  | (true, c1) =>
    have hm := match_kinds_true tokens h3
    PRes.lift (by omega) (handle_variable_declaration c1)
  | (false, _) => handle_statement c
termination_by (tokens.length - c, 32)
decreasing_by
  all_goals simp_wf
  all_goals first
    | exact Prod.Lex.right _ (by omega)
    | exact Prod.Lex.left _ _ (by omega)

/-- `parser.rs`: `handle_declaration`: on any inner parse error,
synchronize and return `Ok(LoxOperation::Invalid)` (the diagnostic print is
not modelled).  The result always makes progress when not at the end of the
input. -/
def handle_declaration (c : Nat) : DRes c (is_at_end tokens c) :=
  match inner_declaration c with
  | ⟨rout, rnext, rmono, rstrict⟩ =>
    match hre : rout with
    | .ok d => ⟨.ok d, rnext, rmono, fun _ => (rstrict d rfl).1⟩
    | .error _why =>
      have hs1 := synchronize_ge_advance tokens rnext
      have hs2 := advance_ge tokens rnext
      ⟨.ok .invalid, synchronize tokens rnext, by omega,
        fun hne => by
          rcases Nat.lt_or_ge c rnext with hlt | hge
          · omega
          · have hceq : rnext = c := by omega
            have hadv : advance tokens rnext = rnext + 1 := by
              rw [hceq]; exact advance_of_not_at_end tokens hne
            omega⟩
termination_by (tokens.length - c, 33)
decreasing_by
  all_goals simp_wf
  all_goals first
    | exact Prod.Lex.right _ (by omega)
    | exact Prod.Lex.left _ _ (by omega)

/-- `parser.rs`: the declaration loop of `handle_statements_block`. -/
def handle_statements_block_loop (statements : List LoxStatement) (c : Nat) :
    LRes (List LoxStatement) c :=
  if hg : check tokens c .rightBrace || is_at_end tokens c then
    ⟨.ok statements, c, Nat.le_refl c⟩
  else
    have hgf : is_at_end tokens c = false := by
      have hor : (check tokens c .rightBrace || is_at_end tokens c) = false := by
        cases hcase : (check tokens c .rightBrace || is_at_end tokens c) with
        | true => exact absurd hcase hg
        | false => rfl
      rcases Bool.or_eq_false_iff.mp hor with ⟨_, h2⟩
      exact h2
    have hlt := not_at_end_lt_length tokens hgf
    match handle_declaration c with
    | ⟨dout, dnext, dmono, dprogress⟩ =>
      have hdp := dprogress hgf
      match dout with
      | .error e => ⟨.error e, dnext, dmono⟩
      | .ok op =>
        match op.as_statement with
        | .error e => ⟨.error e, dnext, dmono⟩
        | .ok s =>
          match handle_statements_block_loop (statements ++ [s]) dnext with
          | ⟨lout, lnext, lmono⟩ => ⟨lout, lnext, by omega⟩
termination_by (tokens.length - c, 34)
decreasing_by
  all_goals simp_wf
  all_goals first
    | exact Prod.Lex.right _ (by omega)
    | exact Prod.Lex.left _ _ (by omega)

/-- `parser.rs`: `handle_statements_block`. -/
def handle_statements_block (c : Nat) : PRes tokens.length (List LoxStatement) c :=
  match handle_statements_block_loop [] c with
  | ⟨lout, lnext, lmono⟩ =>
    match lout with
    | .error e => PRes.fail e lnext lmono
    | .ok statements =>
      match consume_kind tokens lnext .rightBrace "Expect '\x7d' after block." with
      | ⟨crout, crnext, crmono, crstrict⟩ =>
        match hcre : crout with
        | .error e => PRes.fail e crnext (by omega)
        | .ok _ =>
          have hst := crstrict _ rfl
          PRes.succeed statements crnext (by omega) ⟨by omega, by omega⟩
termination_by (tokens.length - c, 35)
decreasing_by
  all_goals simp_wf
  all_goals first
    | exact Prod.Lex.right _ (by omega)
    | exact Prod.Lex.left _ _ (by omega)

end

/-- `parser.rs`: the `while !is_at_end` loop of `Parser::parse`. -/
def parseLoop (c : Nat) : Except LoxErr (List LoxOperation) :=
  if hae : is_at_end tokens c = true then .ok []
  else
    match handle_declaration tokens c with
    | ⟨dout, dnext, dmono, dprogress⟩ =>
      have hne : is_at_end tokens c = false := by simpa using hae
      have hdp : c < dnext := dprogress hne
      have hlt : c < tokens.length := not_at_end_lt_length tokens hne
      match dout with
      | .error e => .error e
      | .ok op =>
        match parseLoop dnext with
        | .error e => .error e
        | .ok ops => .ok (op :: ops)
termination_by tokens.length - c
decreasing_by omega

end ParserEmbedding

/-- `parser.rs`: `Parser::parse` (`from_tokens` starts at `current = 0`). -/
def parse (tokens : List LoxToken) : Except LoxErr (List LoxOperation) :=
  parseLoop tokens 0

/-! ## Projections and concrete inputs used by the claim theorems -/

/-- Panic message of a finished VM run, if it panicked. -/
def VMRunOutcome.panicMessage : VMRunOutcome → Option String
  | .panicked m _ => some m
  | _ => none

/-- Final state of a VM run. -/
def VMRunOutcome.state : VMRunOutcome → VMState
  | .finished _ vm => vm
  | .panicked _ vm => vm
  | .outOfFuel vm => vm

/-- Panic message of a single VM step, if it panicked. -/
def VMStepOutcome.panicMessage : VMStepOutcome → Option String
  | .panicked m _ => some m
  | _ => none

/-- State after a single VM step. -/
def VMStepOutcome.state : VMStepOutcome → VMState
  | .continuing vm => vm
  | .finished _ vm => vm
  | .panicked _ vm => vm

/-- A token on line 1 (concrete-program helper). -/
def tk (k : LoxTokenType) (lex : String) : LoxToken := ⟨k, lex, 1⟩

/-- `fun f() {}` -/
def c1_op1 : LoxOperation := .statement (.function (tk (.identifier "f") "f") [] [])

/-- `f();` -/
def c1_op2 : LoxOperation := .statement (.expression
  (.call (.variableExpr (tk (.identifier "f") "f")) (tk .rightParenthesis ")") []))

/-- `fun g() { return 7; }` -/
def c1_ret_op1 : LoxOperation := .statement (.function (tk (.identifier "g") "g") []
  [.returnStmt (tk .returnKw "return") (.literal (.numberLit 7))])

/-- `g()` as a top-level expression operation. -/
def c1_ret_op2 : LoxOperation := .expression
  (.call (.variableExpr (tk (.identifier "g") "g")) (tk .rightParenthesis ")") [])

/-- `class A { init() { this.x = 1; } }` -/
def c2_op1 : LoxOperation := .statement (.classStmt (tk (.identifier "A") "A") .noOp
  [.function (tk (.identifier "init") "init") []
    [.expression (.setExpr (.thisExpr (tk .thisKw "this")) (tk (.identifier "x") "x")
      (.literal (.numberLit 1)))]])

/-- `A();` -/
def c2_op2 : LoxOperation := .statement (.expression
  (.call (.variableExpr (tk (.identifier "A") "A")) (tk .rightParenthesis ")") []))

/-- `{ var a = 1; print a; }` — the use of `a` is found in the innermost
scope, so the claim would have the resolver record depth 0 for it. -/
def c3_ops : List LoxOperation := [.statement (.block
  [.variableStmt (tk (.identifier "a") "a") (.literal (.numberLit 1)),
   .print (.variableExpr (tk (.identifier "a") "a"))])]

/-- The chunk the bytecode compiler produces for the expression `1`:
`Constant`, `Value 0`, `Return`, with `1` in the constant pool. -/
def c4_chunk : LoxBytecodeChunk := ⟨[1, 1, 1], [.number 1], [.constant, .value 0, .returnOp]⟩

/-- A VM state about to execute `Return` with two values on the stack. -/
def c4_returnState : VMState :=
  { chunk := ⟨[1], [], [.returnOp]⟩, instruction_pointer := 0,
    stack := List.replicate LOX_STACK_MAX .nilV, stack_index := 2, output := [] }

/-- A function value (`fun f() {}` with the globals environment as
closure). -/
def c5_fun_value : LoxValue := .function 0 false (.function (tk (.identifier "f") "f") [] []) 0

/-- The constructor tag of a value (same tag = same variant). -/
def LoxValue.variantTag : LoxValue → Nat
  | .nil => 0
  | .number _ => 1
  | .boolean _ => 2
  | .stringV _ => 3
  | .function _ _ _ _ => 4
  | .nativeFunction _ _ => 5
  | .classV _ _ _ => 6
  | .classInstance _ _ => 7

/-- A three-environment chain: handle 2 (start) → handle 1 → handle 0.
Handle 0 binds `x` to `"b"` and `y` to `"yv"`; handle 1 binds `x` to
`"a"`; handle 2 binds nothing. -/
def c6_store : Store :=
  { vals := [.stringV "b", .stringV "a", .stringV "yv"],
    envs := [⟨[("x", 0), ("y", 2)], none⟩, ⟨[("x", 1)], some 0⟩, ⟨[], some 1⟩],
    output := [], clock := 0 }

/-- `var f;` -/
def c7_op1 : LoxOperation := .statement (.variableStmt (tk (.identifier "f") "f") .noOp)

/-- `{ var x = 42; fun g() { return x; } f = g; }` -/
def c7_op2 : LoxOperation := .statement (.block
  [.variableStmt (tk (.identifier "x") "x") (.literal (.numberLit 42)),
   .function (tk (.identifier "g") "g") []
     [.returnStmt (tk .returnKw "return") (.variableExpr (tk (.identifier "x") "x"))],
   .expression (.assign (tk (.identifier "f") "f") (.variableExpr (tk (.identifier "g") "g")))])

/-- `f()` as a top-level expression operation: called after the block that
declared `x` has exited. -/
def c7_op3 : LoxOperation := .expression
  (.call (.variableExpr (tk (.identifier "f") "f")) (tk .rightParenthesis ")") [])

/-- A VM state about to execute `Add` with the numbers `1` and `2` on the
stack (`stack_index = 2`). -/
def c8_addState : VMState :=
  { chunk := ⟨[1], [], [.add]⟩, instruction_pointer := 0,
    stack := ((List.replicate LOX_STACK_MAX LoxBytecodeValue.nilV).set 0 (.number 1)).set 1
      (.number 2),
    stack_index := 2, output := [] }

/-- The statement-shaped evaluator tasks (statements and statement lists). -/
def EvalTask.isStmtTask : EvalTask → Bool
  | .stmt _ _ => true
  | .stmtSeq _ _ => true
  | _ => false

/-- The continuation applied by `LoxCallable::call` for a user function to
the result of executing the body: a normal completion looks `this` up in
the closure, a `Return` signal yields its value unless the function is an
initializer, when `this` is looked up instead; other errors propagate. -/
def handleFunctionCallResult (is_initializer : Bool) (closure : Nat) :
    (Except LoxErr EvalOut) × Store → (Except LoxErr EvalOut) × Store
  | (.ok _, st3) =>
    (match environment_handle_get_at_depth st3 closure "this" 0 with
     | .ok h => (.ok (.one h), st3)
     | .error err => (.error err, st3))
  | (.error (.interpreterReturn v), st3) =>
    if is_initializer then
      (match environment_handle_get_at_depth st3 closure "this" 0 with
       | .ok h => (.ok (.one h), st3)
       | .error err => (.error err, st3))
    else (.ok (.one v), st3)
  | (.error err, st3) => (.error err, st3)

/-- A concrete store holding one parameterless function value whose closure
is environment 0, for instantiating the closure-capture theorem. -/
def c7w_store : Store :=
  ⟨[.function 0 false (.function (tk (.identifier "f") "f") [] []) 0],
   [⟨[], none⟩], [], 0⟩

/-! ## Theorems -/

set_option maxRecDepth 10000

/-- Parsing one declaration never surfaces an error: the catch branch of
`handle_declaration` turns any inner error into `Ok(Invalid)` after
synchronizing. -/
theorem handle_declaration_ok (tokens : List LoxToken) (c : Nat) :
    ∃ op, (handle_declaration tokens c).out = Except.ok op := by
  unfold handle_declaration
  rcases hI : inner_declaration tokens c with ⟨rout, rnext, rmono, rstrict⟩
  cases rout with
  | ok d => exact ⟨d, rfl⟩
  | error e => exact ⟨.invalid, rfl⟩

/-- The parse loop returns `Ok` on every token list (fuel `n` bounds the
remaining tokens, which `handle_declaration` strictly consumes). -/
theorem parseLoop_ok_aux (tokens : List LoxToken) :
    ∀ n c, tokens.length - c ≤ n → ∃ ops, parseLoop tokens c = Except.ok ops := by
  intro n
  induction n with
  | zero =>
    intro c hc
    unfold parseLoop
    split
    · exact ⟨[], rfl⟩
    · rename_i hae
      have hne : is_at_end tokens c = false := by simpa using hae
      have := not_at_end_lt_length tokens hne
      omega
  | succ n ih =>
    intro c hc
    unfold parseLoop
    split
    · exact ⟨[], rfl⟩
    · rename_i hae
      have hne : is_at_end tokens c = false := by simpa using hae
      have hlen := not_at_end_lt_length tokens hne
      obtain ⟨op, hop⟩ := handle_declaration_ok tokens c
      rcases hD : handle_declaration tokens c with ⟨dout, dnext, dmono, dprog⟩
      rw [hD] at hop
      have hop2 : dout = Except.ok op := hop
      subst hop2
      have hdp : c < dnext := dprog hne
      obtain ⟨ops, hops⟩ := ih dnext (by omega)
      simp only [hops]
      exact ⟨op :: ops, rfl⟩

/-- Reading a freshly allocated value handle yields the allocated value. -/
theorem getVal_newVal (st : Store) (v : LoxValue) :
    ((st.newVal v).2).getVal (st.newVal v).1 = some v := by
  simp [Store.newVal, Store.getVal, List.get?_eq_getElem?,
    List.getElem?_concat_length]

/-- Core invariant behind C10: every statement-shaped evaluator task that
completes normally returns a handle to a freshly allocated `Nil`. -/
theorem evalCore_stmt_nil (locals : LoxTreeWalkEvaluatorLocals) :
    ∀ fuel task st out st', task.isStmtTask = true →
      evalCore locals fuel task st = (.ok out, st') →
      ∃ k, out = .one k ∧ st'.getVal k = some .nil := by
  intro fuel
  induction fuel with
  | zero =>
    intro task st out st' _ h
    simp [evalCore] at h
  | succ fuel ih =>
    intro task st out st' htask h
    cases task with
    | expr e env => simp [EvalTask.isStmtTask] at htask
    | exprSeq l env => simp [EvalTask.isStmtTask] at htask
    | callValue a b c d => simp [EvalTask.isStmtTask] at htask
    | stmtSeq l env =>
      cases l with
      | nil =>
        simp only [evalCore, Store.newVal, Prod.mk.injEq, Except.ok.injEq] at h
        obtain ⟨h1, h2⟩ := h
        subst h2
        exact ⟨_, h1.symm, by
          simp [Store.getVal, List.get?_eq_getElem?, List.getElem?_concat_length]⟩
      | cons s rest =>
        simp only [evalCore] at h
        split at h
        · simp at h
        · exact ih _ _ _ _ (by simp [EvalTask.isStmtTask]) h
    | stmt s env =>
      cases s <;> (simp only [evalCore] at h; repeat' split at h)
      all_goals first
        | exact ih _ _ _ _ (by simp [EvalTask.isStmtTask]) h
        | (simp at h; done)
        | (try simp only [Prod.mk.injEq, Except.ok.injEq] at h
           obtain ⟨h1, h2⟩ := h
           subst h2
           exact ⟨_, h1.symm, getVal_newVal _ _⟩)

/-- `LoxEnvironment::define` never touches the value heap. -/
theorem vals_environment_define (st : Store) (env : Nat) (n : String) (v : Nat) :
    (environment_define st env n v).vals = st.vals := by
  unfold environment_define
  split <;> rfl

/-- Allocating a fresh value leaves existing handles readable unchanged. -/
theorem getVal_newVal_lt {st : Store} {k : Nat} (hk : k < st.vals.length)
    (v : LoxValue) : ((st.newVal v).2).getVal k = st.getVal k := by
  simp [Store.newVal, Store.getVal, List.get?_eq_getElem?,
    List.getElem?_append, hk]

/-- `LoxEnvironment::define` preserves every environment outer link. -/
theorem outer_environment_define (st : Store) (env target : Nat) (n : String)
    (v : Nat) :
    ((environment_define st env n v).getEnv target).map LoxEnvironment.outer
      = (st.getEnv target).map LoxEnvironment.outer := by
  unfold environment_define
  split
  · rfl
  · rename_i e he
    simp only [Store.setEnv, Store.getEnv, List.get?_eq_getElem?] at he ⊢
    rw [List.getElem?_set]
    rcases eq_or_ne env target with rfl | hdne
    · have hlen : env < st.envs.length := (List.getElem?_eq_some.mp he).1
      rw [if_pos rfl, if_pos hlen, he]
      rfl
    · rw [if_neg hdne]

/-- Binding the call arguments preserves every environment outer link. -/
theorem bindParameters_outer (env target : Nat) :
    ∀ (ps : List LoxToken) (args : List Nat) (st st1 : Store),
      bindParameters st env ps args = some st1 →
      (st1.getEnv target).map LoxEnvironment.outer
        = (st.getEnv target).map LoxEnvironment.outer := by
  intro ps
  induction ps with
  | nil =>
    intro args st st1 h
    simp only [bindParameters, Option.some.injEq] at h
    subst h; rfl
  | cons p ps ih =>
    intro args st st1 h
    cases args with
    | nil => simp [bindParameters] at h
    | cons a rest =>
      simp only [bindParameters] at h
      rw [ih rest _ st1 h, outer_environment_define]

/-- C1: the claimed fall-through behaviour does not hold.  Calling the
parameterless function `f` declared by `fun f() {}` does not return `Nil`:
the fall-through branch of `LoxCallable::call` looks `this` up in the closure
at depth 0, so the whole program fails with the runtime error
`Undefined variable 'this'`.  The `Return`-signal half of the claim does hold:
`fun g() { return 7; }  g()` evaluates to the number 7. -/
theorem function_call_fall_through_this_c1 :
    (interpret 30 [c1_op1, c1_op2]).1 = .error (.interpreterUndefinedVariable "this")
    ∧ ∃ h, (interpret 30 [c1_ret_op1, c1_ret_op2]).1 = .ok h ∧
        (interpret 30 [c1_ret_op1, c1_ret_op2]).2.getVal h = some (.number 7) :=
  ⟨rfl, _, rfl, rfl⟩

/-- C2: calling a class with an `init` method does not invoke `init` on the
freshly constructed instance: `LoxCallable::call` for a class binds `this` to
`self` — the class value itself — so `class A { init() { this.x = 1; } }  A();`
fails with `CannotGetOrSetField` on the class value instead of setting a field
of the new instance. -/
theorem class_init_this_is_class_c2 :
    (interpret 30 [c2_op1, c2_op2]).1 =
      .error (.interpreterCannotGetOrSetField (tk (.identifier "x") "x")) := rfl

/-- C3: the resolver records no depth for any variable use: the body of
`resolve_local_variable` is commented out in the source, so resolving
`{ var a = 1; print a; }` — where the claim mandates recording depth 0 for
the use of `a` — leaves the locals map empty (and the scope stack balanced
back to empty). -/
theorem resolver_locals_stay_empty_c3 :
    ∃ rs, resolveOperations 30 LoxResolver.new c3_ops = .ok rs ∧
      rs.locals = [] ∧ rs.scopes = [] :=
  ⟨_, rfl, rfl, rfl⟩

/-- C4: the VM dispatch loop does not execute opcodes in sequence and
`Return` does not halt.  `interpret` never increments `instruction_pointer`,
so on the compiled chunk for the expression `1` (`Constant, Value 0, Return`)
the VM re-executes `Constant` until the stack overflow panic
(`index out of bounds`), with the pointer still 0 and nothing printed; and a
VM stepped on a bare `Return` does not halt with `Ok` but keeps popping from
the fixed slot 255 (printing `nil` twice from an untouched stack) until
`runtime_error` underflows `ip - size - 1` and panics. -/
theorem vm_no_advance_no_halt_c4 :
    (vmRun 300 (vmDefault c4_chunk)).panicMessage = some "index out of bounds"
    ∧ (vmRun 300 (vmDefault c4_chunk)).state.instruction_pointer = 0
    ∧ (vmRun 300 (vmDefault c4_chunk)).state.output = []
    ∧ (vmRun 10 c4_returnState).panicMessage = some "attempt to subtract with overflow"
    ∧ (vmRun 10 c4_returnState).state.output = ["nil", "nil"] :=
  ⟨rfl, rfl, rfl, rfl, rfl⟩

/-- C5 (counterexample to the original claim): functions, classes and
instances do NOT compare by identity — `equals` returns `false` even for a
function value, a class value and an instance value compared with
themselves (its catch-all arm covers every non-primitive pair). -/
theorem equals_identity_fails_c5_counterexample :
    LoxValue.equals c5_fun_value c5_fun_value = false
    ∧ LoxValue.equals (.classV "A" 0 []) (.classV "A" 0 []) = false
    ∧ LoxValue.equals (.classInstance 0 []) (.classInstance 0 []) = false :=
  ⟨rfl, rfl, rfl⟩

/-- C5 (amended): `equals` is structural on primitives — numbers equal iff
their difference is below epsilon in absolute value, booleans and strings
compare by value, `nil` equals only `nil`, equal values always have the same
variant — and `x == x` holds exactly for the primitive values (`nil`,
numbers, booleans, strings); function, class and instance values are never
equal, not even to themselves. -/
theorem equals_primitive_only_c5 :
    (∀ v : LoxValue, LoxValue.equals v v = v.isPrimitive)
    ∧ (∀ p q : ℚ, LoxValue.equals (.number p) (.number q) = true ↔
        |p - q| < LOX_NUMBER_VALUE_COMPARISON_EPSILON)
    ∧ (∀ b c : Bool, LoxValue.equals (.boolean b) (.boolean c) = true ↔ b = c)
    ∧ (∀ s t : String, LoxValue.equals (.stringV s) (.stringV t) = true ↔ s = t)
    ∧ (∀ v : LoxValue, LoxValue.equals .nil v = true ↔ v = .nil)
    ∧ (∀ u v : LoxValue, LoxValue.equals u v = true →
        u.variantTag = v.variantTag) := by
  refine ⟨?_, ?_, ?_, ?_, ?_, ?_⟩
  · intro v
    cases v <;> simp [LoxValue.equals, LoxValue.isPrimitive]
    rename_i q
    norm_num [LOX_NUMBER_VALUE_COMPARISON_EPSILON]
  · intro p q; simp [LoxValue.equals]
  · intro b c; simp [LoxValue.equals]
  · intro s t; simp [LoxValue.equals]
  · intro v; cases v <;> simp [LoxValue.equals]
  · intro u v h
    cases u <;> cases v <;> simp_all [LoxValue.equals, LoxValue.variantTag]

/-- C6: `get_at(depth, name)` neither reaches the environment `depth` outer
links away nor reads only its local map.  On a three-environment chain
(handle 2 → 1 → 0) where handle 0 binds `x` to `"b"` and handle 1 binds `x`
to `"a"`, `get_at(2, "x")` returns the binding of handle 1 (`"a"`), because
`ancestor` re-reads the outer link of the ORIGINAL handle on every
iteration, so any depth ≥ 1 lands one link out (the spec-modelled
`spec_ancestor` reaches handle 0, whose binding is `"b"`); and
`get_at(0, "y")` finds `y` bound two links away even though handle 2 binds
nothing, because the lookup falls back to the searching `get`. -/
theorem get_at_depth_wrong_scope_c6 :
    environment_handle_get_at_depth c6_store 2 "x" 2 = .ok 1
    ∧ c6_store.getVal 1 = some (.stringV "a")
    ∧ spec_ancestor c6_store 2 2 = .ok 0
    ∧ c6_store.getEnv 0 = some ⟨[("x", 0), ("y", 2)], none⟩
    ∧ c6_store.getVal 0 = some (.stringV "b")
    ∧ environment_handle_get_at_depth c6_store 2 "y" 0 = .ok 2
    ∧ c6_store.getEnv 2 = some ⟨[], some 1⟩ :=
  ⟨rfl, rfl, rfl, rfl, rfl, rfl, rfl⟩

/-- C7: closure capture.  (1) Evaluating a function declaration stores a
function value whose closure field is exactly the environment the statement
executes in.  (2) For any call of a function value, the call environment is
allocated with the captured closure as its outer link, and parameter binding
preserves that link.  (3) The body then runs in that environment: the call
step equals `handleFunctionCallResult` applied to the body executed in the
fresh closure-chained environment.  (4) End to end, `var f;
{ var x = 42; fun g() { return x; } f = g; }  f()` evaluates to 42: the
call observes the creation-time binding of `x` after the block has exited. -/
theorem closure_capture_c7
    (locals : LoxTreeWalkEvaluatorLocals) (fuel : Nat)
    (name : LoxToken) (parameters : List LoxToken) (body : List LoxStatement)
    (envDecl : Nat) (stDecl : Store)
    (ch : Nat) (args : List Nat) (env : Nat) (paren : LoxToken) (st : Store)
    (arity : Nat) (ini : Bool) (decl : LoxStatement) (closure : Nat)
    (nm : LoxToken) (ps : List LoxToken) (bd : List LoxStatement) (st2 : Store)
    (hv : st.getVal ch = some (.function arity ini decl closure))
    (ha : arity = args.length)
    (hdf : decl.deconstruct_function_declaration = some (nm, ps, bd))
    (hb : bindParameters (st.newEnv (some closure)).2 (st.newEnv (some closure)).1
        ps args = some st2) :
    ((evalCore locals (fuel+1)
        (.stmt (.function name parameters body) envDecl) stDecl).2).getVal
        stDecl.vals.length
      = some (.function parameters.length false
          (.function name parameters body) envDecl)
    ∧ (∃ e, st2.getEnv (st.newEnv (some closure)).1 = some e
        ∧ e.outer = some closure)
    ∧ evalCore locals (fuel+1) (.callValue ch args env paren) st
        = handleFunctionCallResult ini closure
            (evalCore locals fuel (.stmtSeq bd (st.newEnv (some closure)).1) st2)
    ∧ (∃ h, (interpret 50 [c7_op1, c7_op2, c7_op3]).1 = .ok h
        ∧ (interpret 50 [c7_op1, c7_op2, c7_op3]).2.getVal h
            = some (.number 42)) := by
  refine ⟨?_, ?_, ?_, ⟨4, rfl, rfl⟩⟩
  · show ((environment_define
        (stDecl.newVal (LoxValue.function parameters.length false
          (.function name parameters body) envDecl)).2
        envDecl name.lexeme stDecl.vals.length).newVal LoxValue.nil).2.getVal
        stDecl.vals.length
      = some (LoxValue.function parameters.length false
          (.function name parameters body) envDecl)
    rw [getVal_newVal_lt]
    · unfold Store.getVal
      rw [vals_environment_define]
      simp [Store.newVal, List.get?_eq_getElem?, List.getElem?_concat_length]
    · rw [vals_environment_define]
      simp [Store.newVal]
  · have h0 : ((st.newEnv (some closure)).2).getEnv (st.newEnv (some closure)).1
        = some ⟨[], some closure⟩ := by
      simp [Store.newEnv, Store.getEnv, List.get?_eq_getElem?,
        List.getElem?_concat_length]
    have hmap := bindParameters_outer (st.newEnv (some closure)).1
      (st.newEnv (some closure)).1 ps args (st.newEnv (some closure)).2 st2 hb
    rw [h0] at hmap
    rcases hget : st2.getEnv (st.newEnv (some closure)).1 with _ | e
    · rw [hget] at hmap; simp at hmap
    · rw [hget] at hmap
      exact ⟨e, rfl, by simpa using hmap⟩
  · subst ha
    simp only [evalCore, hv, hdf, ne_eq, not_true_eq_false, if_false, Store.newEnv]
    simp only [Store.newEnv] at hb
    split
    · rename_i hnone
      rw [hb] at hnone
      simp at hnone
    · rename_i st4 hsome
      rw [hb] at hsome
      injection hsome with hs
      subst hs
      generalize evalCore locals fuel (.stmtSeq bd st.envs.length) st2 = r
      obtain ⟨res, st3⟩ := r
      rcases res with err | out
      · cases err <;> rfl
      · rfl

/-- C7 witness: the closure-capture theorem applied to a concrete store
holding a parameterless function whose closure is environment 0: the fresh
call environment has outer link 0. -/
theorem closure_capture_c7_witness :
    ∃ e, ((c7w_store.newEnv (some 0)).2).getEnv (c7w_store.newEnv (some 0)).1
        = some e ∧ e.outer = some 0 :=
  (closure_capture_c7 [] 3 (tk (.identifier "f") "f") [] [] 0 c7w_store
    0 [] 0 (tk .rightParenthesis ")") c7w_store 0 false
    (.function (tk (.identifier "f") "f") [] []) 0
    (tk (.identifier "f") "f") [] [] (c7w_store.newEnv (some 0)).2
    rfl rfl rfl rfl).2.1

/-- C8: the numeric binary opcodes do not behave as claimed.  On a VM about
to execute `Add` with the numbers 1 and 2 in stack slots 0 and 1
(`stack_index = 2`), `interpret` does not pop them: `peek` reads the fixed
slot `LOX_STACK_MAX - 1 - distance`, which holds `Nil`, so the type check
fails even on two numbers; the reported message is the typo
`Operands must be a numbers.` (and `Add` has no string case at all); and
instead of halting with `RuntimeError`, `runtime_error` computes
`ip - size - 1` on `usize`, which underflows and panics. -/
theorem vm_binary_op_error_path_c8 :
    (vmStep c8_addState).panicMessage = some "attempt to subtract with overflow"
    ∧ (vmStep c8_addState).state.output = ["Operands must be a numbers."]
    ∧ c8_addState.stack.get? 0 = some (.number 1)
    ∧ c8_addState.stack.get? 1 = some (.number 2)
    ∧ c8_addState.stack_index = 2 :=
  ⟨rfl, rfl, rfl, rfl, rfl⟩

/-- C9: `Parser::parse` returns `Ok` on EVERY token list: when a declaration
fails to parse, `handle_declaration` synchronizes and yields
`LoxOperation::Invalid` instead of propagating the error, so no parse error
ever surfaces as an `Err` from `parse`. -/
theorem parse_always_ok_c9 (tokens : List LoxToken) :
    ∃ operations, parse tokens = Except.ok operations :=
  parseLoop_ok_aux tokens tokens.length 0 (by omega)

/-- C10: statement evaluation only ever produces `Nil`: whenever
`evaluate_statement` returns `Ok`, the returned handle holds the `Nil`
value, and likewise `LoxTreeWalkEvaluator::evaluate` on any non-expression
operation; only an expression operation can yield a non-`Nil` result. -/
theorem statement_yields_nil_c10 (locals : LoxTreeWalkEvaluatorLocals)
    (fuel : Nat) (env : Nat) (st : Store) :
    (∀ (s : LoxStatement) (k : Nat) (st1 : Store),
        evaluate_statement locals fuel s env st = (.ok k, st1) →
        st1.getVal k = some LoxValue.nil)
    ∧ (∀ (op : LoxOperation) (k : Nat) (st1 : Store),
        (∀ e, op ≠ .expression e) →
        evaluateOperation locals fuel env op st = (.ok k, st1) →
        st1.getVal k = some LoxValue.nil) := by
  have core : ∀ (s : LoxStatement) (k : Nat) (st1 : Store),
      evaluate_statement locals fuel s env st = (.ok k, st1) →
      st1.getVal k = some LoxValue.nil := by
    intro s k st1 h
    unfold evaluate_statement at h
    rcases hE : evalCore locals fuel (.stmt s env) st with ⟨res, st2⟩
    rw [hE] at h
    rcases res with err | out
    · simp at h
    · rcases out with k2 | hs
      · simp only [Prod.mk.injEq, Except.ok.injEq] at h
        obtain ⟨h1, h2⟩ := h
        obtain ⟨k3, hk3, hget⟩ :=
          evalCore_stmt_nil locals fuel (.stmt s env) st (.one k2) st2 rfl hE
        injection hk3 with hk4
        subst hk4
        rw [← h1, ← h2]
        exact hget
      · simp at h
  refine ⟨core, ?_⟩
  intro op k st1 hne h
  cases op with
  | invalid =>
    simp only [evaluateOperation, Store.newVal, Prod.mk.injEq, Except.ok.injEq] at h
    obtain ⟨h1, h2⟩ := h
    subst h1; subst h2
    exact getVal_newVal st .nil
  | expression e => exact absurd rfl (hne e)
  | statement s => exact core s k st1 h

/-- C10 witness: the no-op statement on the empty store evaluates to a fresh
handle holding `Nil`. -/
theorem statement_yields_nil_c10_witness :
    evaluate_statement [] 1 .noOp 0 ⟨[], [], [], 0⟩ = (.ok 0, ⟨[.nil], [], [], 0⟩)
    ∧ (⟨[.nil], [], [], 0⟩ : Store).getVal 0 = some .nil :=
  ⟨rfl, (statement_yields_nil_c10 [] 1 0 ⟨[], [], [], 0⟩).1 .noOp 0
    ⟨[.nil], [], [], 0⟩ rfl⟩

end Lox
